import Mathlib

/-!
Shallow embedding of the checksum_archive_tools repository (Python) in Lean 4.

Python strings are modelled as `List Char` (wrapped in plain functions), file
contents as `List Char`, and the filesystem as an association list from path
strings to file contents.  Python exceptions are modelled by `Option`
(`none` = an exception was raised).  `unicodedata.normalize("NFC", s)` is kept
abstract as a function parameter `nfc`; theorems that need it assume it fixes
the strings involved (true for NFC-normalized data, e.g. ASCII).
-/

namespace CAT

/-! ## Python string primitives (`List Char` level) -/

/-- Python `s.replace("\\", "/")` (single-character pattern). -/
def slashify (l : List Char) : List Char :=
  l.map (fun c => if c = '\\' then '/' else c)

/-- Python `s.replace("\n", "")` (single-character pattern, i.e. removal). -/
def removeNewlines (l : List Char) : List Char :=
  l.filter (fun c => c ≠ '\n')

/-- Boolean prefix test on character lists. -/
def startsWithList : List Char → List Char → Bool
  | [], _ => true
  | _ :: _, [] => false
  | a :: as, b :: bs => a = b && startsWithList as bs

/-- Index of the first occurrence of (nonempty) `sep` in `l`, as in Python
`s.find(sep)` (with `none` for "not found"). -/
def findSub (sep : List Char) : List Char → Option Nat
  | [] => if startsWithList sep [] then some 0 else none
  | c :: t =>
    if startsWithList sep (c :: t) then some 0
    else (findSub sep t).map (· + 1)

/-- Index of the last occurrence of (nonempty) `sep` in `l`, as used by Python
`s.rsplit(sep, 1)`. -/
def findSubLast (sep : List Char) : List Char → Option Nat
  | [] => if startsWithList sep [] then some 0 else none
  | c :: t =>
    match findSubLast sep t with
    | some i => some (i + 1)
    | none => if startsWithList sep (c :: t) then some 0 else none

/-- Python `s.split(sep)[0]`: everything before the first occurrence of `sep`,
or all of `s` when `sep` does not occur (`split` always returns ≥ 1 piece). -/
def takeUntilSub (sep l : List Char) : List Char :=
  match findSub sep l with
  | some i => l.take i
  | none => l

/-- Python `s.split(sep, 1)` when it produces two pieces; `none` models the
one-piece result (so that indexing `[1]` raises IndexError). -/
def splitOnceSub (sep l : List Char) : Option (List Char × List Char) :=
  match findSub sep l with
  | some i => some (l.take i, l.drop (i + sep.length))
  | none => none

/-- Python `s.rsplit(sep, 1)` when it produces two pieces; `none` models the
one-piece result. -/
def rsplitOnceSub (sep l : List Char) : Option (List Char × List Char) :=
  match findSubLast sep l with
  | some i => some (l.take i, l.drop (i + sep.length))
  | none => none

/-- Python `s.replace(old, new)` for a multi-character `old`: leftmost,
non-overlapping replacement. -/
def replaceSubCore (pat rep : List Char) : Nat → List Char → List Char
  | 0, l => l
  | _ + 1, [] => []
  | fuel + 1, c :: t =>
    if startsWithList pat (c :: t) ∧ pat ≠ [] then
      rep ++ replaceSubCore pat rep fuel ((c :: t).drop pat.length)
    else
      c :: replaceSubCore pat rep fuel t

/-- Python `s.replace(old, new)` for a nonempty multi-character `old`:
leftmost, non-overlapping replacement.  Each step consumes at least one input
character, so `l.length` steps always suffice. -/
def replaceSub (pat rep l : List Char) : List Char :=
  replaceSubCore pat rep l.length l

/-- Whitespace recognised by Python `str.split()` (ASCII fragment). -/
def isPySpace (c : Char) : Bool :=
  c = ' ' ∨ c = '\t' ∨ c = '\n' ∨ c = '\r' ∨ c = Char.ofNat 11 ∨ c = Char.ofNat 12

/-- Python `s.split()[0]`: first whitespace-delimited token, `none` when the
string has no token (so indexing `[0]` raises IndexError). -/
def firstWsToken (l : List Char) : Option (List Char) :=
  let l' := l.dropWhile isPySpace
  match l' with
  | [] => none
  | _ :: _ => some (l'.takeWhile (fun c => ¬ isPySpace c))

/-- Python `s.upper()` (ASCII model). -/
def pyUpper (l : List Char) : List Char :=
  l.map Char.toUpper

/-- The characters matched by the regex class `[A-Fa-f0-9]`. -/
def hexDigits : List Char :=
  ['A', 'B', 'C', 'D', 'E', 'F'] ++ ['a', 'b', 'c', 'd', 'e', 'f'] ++
    ['0', '1', '2', '3', '4', '5', '6', '7', '8', '9']

/-- Whether `c` is an ASCII hexadecimal digit. -/
def isHexChar (c : Char) : Bool :=
  decide (c ∈ hexDigits)

/-- Python `re.match("^[A-Fa-f0-9]{32}$", s) is not None`: `s` is 32 hex
characters, optionally followed by one final newline (Python `$` also matches
just before a trailing newline). -/
def matchesMd5Regex (l : List Char) : Bool :=
  let h := l.take 32
  (h.length = 32 && h.all isHexChar) &&
    (l.drop 32 = [] || l.drop 32 = ['\n'])

/-- Index of the last occurrence of character `c` in `l` (Python `s.rfind(c)`
with `none` for -1). -/
def findCharLast (c : Char) : List Char → Option Nat
  | [] => none
  | a :: t =>
    match findCharLast c t with
    | some i => some (i + 1)
    | none => if a = c then some 0 else none

/-! ## String-level wrappers -/

/-- Lift of `slashify` to `String` (Python `s.replace("\\", "/")`). -/
def slashifyS (s : String) : String := ⟨slashify s.data⟩

/-- Python `line in s` substring test. -/
def containsSub (sep l : List Char) : Bool :=
  (findSub sep l).isSome

/-! ## Filesystem model

An association list from paths to file contents; the first binding for a path
is the visible one, and the update operations keep map semantics. -/

/-- Filesystem: association list path ↦ content. -/
abbrev Fs := List (String × String)

/-- Content of the file at `p`, if it exists. -/
def fsGet (fs : Fs) (p : String) : Option String :=
  match fs with
  | [] => none
  | (q, c) :: t => if q = p then some c else fsGet t p

/-- Python `os.path.exists`. -/
def fsExists (fs : Fs) (p : String) : Bool :=
  (fsGet fs p).isSome

/-- Remove any binding for `p`. -/
def fsErase (fs : Fs) (p : String) : Fs :=
  fs.filter (fun e => e.1 ≠ p)

/-- Create or overwrite the file at `p` with content `c`. -/
def fsSet (fs : Fs) (p : String) (c : String) : Fs :=
  (p, c) :: fsErase fs p

/-- Python `os.rename(src, dst)` (callers guarantee `src` exists and `dst`
does not, so no-op on a missing source models the guarded uses). -/
def fsRename (fs : Fs) (src dst : String) : Fs :=
  match fsGet fs src with
  | none => fs
  | some c => fsSet (fsErase fs src) dst c

/-- Helper for `readlines`: prepend `c` to the first line of the split. -/
def consFirst (c : Char) : List (List Char) → List (List Char)
  | [] => [[c]]
  | l :: ls => (c :: l) :: ls

/-- Python `file.readlines()` on a content string: pieces end after each
newline; an empty trailing piece is dropped. -/
def readlines : List Char → List (List Char)
  | [] => []
  | c :: t =>
    if c = '\n' then ['\n'] :: readlines t
    else consFirst c (readlines t)

/-- Python `"".join`-style concatenation of lines into file content. -/
def joinLines (ls : List (List Char)) : List Char :=
  ls.flatten

/-! ## utils/other.py -/

/-- Model of `index_if_possible(array, search_item)` for same-type lookups:
index of the first occurrence, with `none` standing for the sentinel `-1`. -/
def index_if_possible (array : List String) (x : String) : Option Nat :=
  match array with
  | [] => none
  | a :: t => if a = x then some 0 else (index_if_possible t x).map (· + 1)

/-- Model of the call `index_if_possible(dirpath_filenames, filename)` in
`separate_by_dirs`, which searches a list of *lists* for a *string*: Python
`==` between a `list` and a `str` is always `False`, so the scan compares each
element with a constantly-false test.  (This models the source faithfully;
see `index_if_possible_nested_eq_none`.) -/
def index_if_possible_nested (array : List (List String)) (_x : String) : Option Nat :=
  match array with
  | [] => none
  | _ :: t => if False then some 0 else (index_if_possible_nested t _x).map (· + 1)

/-! ## utils/files.py -/

/-- Helper for `clean_filepath`: strip leading slashes of the reversed
string; `none` when nothing is left (Python's `filepath[-1]` raises
IndexError on the empty string). -/
def dropLeadingSlashesRev : List Char → Option (List Char)
  | [] => none
  | c :: t => if c = '/' then dropLeadingSlashesRev t else some (c :: t)

/-- Strip trailing slashes as in `clean_filepath`'s `while filepath[-1] == "/"`
loop; `none` models the IndexError on an empty or all-slash string. -/
def dropTrailingSlashes (l : List Char) : Option (List Char) :=
  (dropLeadingSlashesRev l.reverse).map List.reverse

/-- `clean_filepath(filepath, allow_trailing_slash)` from utils/files.py. -/
def clean_filepath (filepath : String) (allow_trailing_slash : Bool) : Option String :=
  let f := slashify filepath.data
  if allow_trailing_slash then some ⟨f⟩
  else (dropTrailingSlashes f).map (fun l => ⟨l⟩)

/-- `make_relative_path(path, root_dir)` from utils/files.py, with the NFC
normalizer passed in as `nfc`.  `none` models an uncaught IndexError (which
the source can raise when `root_dir` occurs in `path` only mid-segment). -/
def make_relative_path (nfc : String → String) (path : String)
    (root_dir : Option String) : Option String :=
  let p := (nfc ⟨slashify path.data⟩).data
  match root_dir with
  | none => some ⟨p⟩
  | some rd =>
    let r := (nfc ⟨slashify rd.data⟩).data
    let p1 :=
      if containsSub r p then
        let padded := '/' :: p ++ ['/']
        let sep := replaceSub ['/', '/'] ['/'] ('/' :: r ++ ['/'])
        match splitOnceSub sep padded with
        | none => none
        | some (_, post) => some ('.' :: '/' :: post.dropLast)
      else some p
    match p1 with
    | none => none
    | some q => if q = ['.', '/'] then some "." else some ⟨q⟩

/-- `concat_filepaths(first_path, second_path, allow_trailing_slash)` from
utils/files.py.  `os.path.join(a, b)` with `a` ending in a slash and `b`
relative is `a ++ b` (POSIX). -/
def concat_filepaths (first_path second_path : String)
    (allow_trailing_slash : Bool := false) : Option String :=
  match clean_filepath first_path true, clean_filepath second_path allow_trailing_slash with
  | some f, some s =>
    match f.data.getLast? with
    | none => none
    | some c =>
      let f1 := if c ≠ '/' then f.data ++ ['/'] else f.data
      let s1 :=
        match s.data with
        | '/' :: rest => rest
        | '.' :: '/' :: rest => rest
        | other => other
      some ⟨f1 ++ s1⟩
  | _, _ => none

/-- `append_unique_lines_to_file(filepath, lines)` from utils/files.py. -/
def append_unique_lines_to_file (fs : Fs) (filepath : String)
    (lines : List String) : Fs :=
  match fsGet fs filepath with
  | none => fsSet fs filepath ⟨joinLines (lines.map String.data)⟩
  | some content =>
    let existing_lines := readlines content.data
    let appended := (lines.filter (fun l => l.data ∉ existing_lines)).map String.data
    fsSet fs filepath ⟨content.data ++ joinLines appended⟩

/-! ## md5lines: MD5Line / CustomMD5Line / TeracopyMD5Line (static methods) -/

namespace MD5Line

/-- `MD5Line.clean_md5line`: remove newlines, then normalise backslashes. -/
def clean_md5line (l : List Char) : List Char :=
  slashify (removeNewlines l)

/-- `MD5Line.validate_md5line`: regex check on `md5_line.split()[0]`; `none`
models the IndexError raised when the string has no whitespace-token. -/
def validate_md5line (md5_line : String) : Option Bool :=
  (firstWsToken md5_line.data).map matchesMd5Regex

/-- `MD5Line.extract_checksum`: everything before the first `" ./"`. `none`
models a raised exception (failed validation). -/
def extract_checksum (md5_line : String) : Option String :=
  match validate_md5line md5_line with
  | some true => some ⟨takeUntilSub [' ', '.', '/'] (clean_md5line md5_line.data)⟩
  | _ => none

/-- `MD5Line.extract_filepath` with the NFC normalizer passed as `nfc`. -/
def extract_filepath (nfc : String → String) (md5_line : String)
    (reroot_dir : Option String) : Option String :=
  match validate_md5line md5_line with
  | some true =>
    match splitOnceSub [' ', '.', '/'] (clean_md5line md5_line.data) with
    | none => none
    | some (_, post) => make_relative_path nfc ⟨'.' :: '/' :: post⟩ reroot_dir
  | _ => none

/-- `MD5Line.get_md5line_string(filepath, checksum)`. -/
def get_md5line_string (filepath checksum : String) : String :=
  checksum ++ " " ++ filepath

end MD5Line

namespace CustomMD5Line

/-- `CustomMD5Line.validate_md5line`: regex check on
`clean_md5line(md5_line).rsplit(" -> ", 1)[1]`; `none` models the IndexError
raised when the separator is absent. -/
def validate_md5line (md5_line : String) : Option Bool :=
  (rsplitOnceSub [' ', '-', '>', ' '] (MD5Line.clean_md5line md5_line.data)).map
    (fun p => matchesMd5Regex p.2)

/-- `CustomMD5Line.extract_checksum`. -/
def extract_checksum (custom_md5_line : String) : Option String :=
  match validate_md5line custom_md5_line with
  | some true =>
    (rsplitOnceSub [' ', '-', '>', ' '] (MD5Line.clean_md5line custom_md5_line.data)).map
      (fun p => (⟨p.2⟩ : String))
  | _ => none

/-- `CustomMD5Line.extract_filepath` with the NFC normalizer passed as `nfc`. -/
def extract_filepath (nfc : String → String) (custom_md5_line : String)
    (reroot_dir : Option String) : Option String :=
  match validate_md5line custom_md5_line with
  | some true =>
    match rsplitOnceSub [' ', '-', '>', ' '] (MD5Line.clean_md5line custom_md5_line.data) with
    | none => none
    | some (pre, _) => make_relative_path nfc ⟨pre⟩ reroot_dir
  | _ => none

/-- `CustomMD5Line.get_custom_md5line_string(filepath, checksum)`. -/
def get_custom_md5line_string (filepath checksum : String) : String :=
  filepath ++ " -> " ++ checksum

/-- Python `os.path.basename`: everything after the last slash. -/
def basename (l : List Char) : List Char :=
  match findCharLast '/' l with
  | none => l
  | some i => l.drop (i + 1)

/-- `CustomMD5Line.get_short_custom_md5line_string(filepath, checksum)`. -/
def get_short_custom_md5line_string (filepath checksum : String) : String :=
  ⟨basename filepath.data⟩ ++ " -> " ++ checksum

end CustomMD5Line

namespace TeracopyMD5Line

/-- `TeracopyMD5Line.validate_md5line`: regex check on
`md5_line.split(" *")[0]` (the raw line; `split` always yields a first piece,
so this never raises). -/
def validate_md5line (md5_line : String) : Option Bool :=
  some (matchesMd5Regex (takeUntilSub [' ', '*'] md5_line.data))

/-- `TeracopyMD5Line.extract_checksum`. -/
def extract_checksum (teracopy_md5_line : String) : Option String :=
  match validate_md5line teracopy_md5_line with
  | some true =>
    some ⟨takeUntilSub [' ', '*'] (MD5Line.clean_md5line teracopy_md5_line.data)⟩
  | _ => none

/-- `TeracopyMD5Line.extract_filepath` with the NFC normalizer passed as
`nfc`; `none` models the IndexError when `" *"` is absent after cleaning. -/
def extract_filepath (nfc : String → String) (teracopy_md5_line : String)
    (reroot_dir : Option String) : Option String :=
  match validate_md5line teracopy_md5_line with
  | some true =>
    match splitOnceSub [' ', '*'] (MD5Line.clean_md5line teracopy_md5_line.data) with
    | none => none
    | some (_, post) => make_relative_path nfc ⟨post⟩ reroot_dir
  | _ => none

/-- `TeracopyMD5Line.get_teracopy_md5line_string(filepath, checksum)`. -/
def get_teracopy_md5line_string (filepath checksum : String) : String :=
  checksum ++ " *" ++ filepath

end TeracopyMD5Line

/-! ## md5files/md5file_utils.py -/

/-- Reserved filename of a nested manifest. -/
def nested_checksum_filename : String := ".nested_checksum.txt"

/-- Reserved filename of a main manifest. -/
def main_checksum_filename : String := ".main_checksum.txt"

/-- Required header line of a nested manifest. -/
def nested_checksum_header : String := "; nested_checksum"

/-- Required header line of a main manifest. -/
def main_checksum_header : String := "; main_checksum"

/-- `is_checksum_filename(s, checksum_type)`; `checksum_type` is `none`,
`some "custom"` or `some "custom_nested"` as in the source. -/
def is_checksum_filename (s : String) (checksum_type : Option String) : Bool :=
  if checksum_type = some "custom_nested" then s = nested_checksum_filename
  else if checksum_type = some "custom" then s = main_checksum_filename
  else s = main_checksum_filename ∨ s = nested_checksum_filename

/-- First line of a file content as read by `file.readline()` followed by
`.replace("\n", "")`: the characters before the first newline. -/
def firstLine (content : List Char) : List Char :=
  content.takeWhile (fun c => c ≠ '\n')

/-- `check_custom_md5file_header(filepath, nested)`; `none` when the file
does not exist (Python `open` would raise). -/
def check_custom_md5file_header (fs : Fs) (filepath : String) (nested : Bool) :
    Option Bool :=
  match fsGet fs filepath with
  | none => none
  | some content =>
    let correct_header := if nested then nested_checksum_header else main_checksum_header
    some (firstLine content.data = correct_header.data)

/-- Decimal digit character, as produced by Python `str(count)`. -/
def digitChar (d : Nat) : Char :=
  match d with
  | 0 => '0'
  | 1 => '1'
  | 2 => '2'
  | 3 => '3'
  | 4 => '4'
  | 5 => '5'
  | 6 => '6'
  | 7 => '7'
  | 8 => '8'
  | _ => '9'

/-- Fuel-driven decimal conversion: most significant digit first. -/
def natToDecCore : Nat → Nat → List Char
  | 0, _ => []
  | fuel + 1, n =>
    if n < 10 then [digitChar n]
    else natToDecCore fuel (n / 10) ++ [digitChar (n % 10)]

/-- Python `str(n)` for a natural number: its decimal representation. -/
def natToDec (n : Nat) : List Char :=
  natToDecCore (n + 1) n

/-- Python `os.path.splitext(p)` (POSIX): split off the extension at the last
dot, provided it lies in the basename and is preceded there by a non-dot
character. -/
def splitext (p : List Char) : List Char × List Char :=
  let sepIndex : Option Nat := findCharLast '/' p
  let dotIndex : Option Nat := findCharLast '.' p
  match dotIndex with
  | none => (p, [])
  | some di =>
    let base :=
      match sepIndex with
      | none => 0
      | some si => si + 1
    if base ≤ di then
      if ((p.drop base).take (di - base)).any (fun c => c ≠ '.') then
        (p.take di, p.drop di)
      else (p, [])
    else (p, [])

/-- Candidate `_old` names tried by `get_checksum_save_location`: the plain
`_old` name first, then `_old (1)`, `_old (2)`, …. -/
def oldCand (root ext : List Char) : Nat → List Char
  | 0 => root ++ ('_' :: 'o' :: 'l' :: 'd' :: ext)
  | k + 1 =>
    root ++ ('_' :: 'o' :: 'l' :: 'd' :: ' ' :: '(' :: (natToDec (k + 1) ++ (')' :: ext)))

/-- The `while os.path.exists(old_save_location)` loop of
`get_checksum_save_location`: try `oldCand k`, `oldCand (k+1)`, … until a
name is free; `none` when the fuel runs out (shown impossible for fuel
`fs.length`). -/
def find_free_old_name (fs : Fs) (root ext : List Char) : Nat → Nat → Option (List Char)
  | 0, k => if fsExists fs ⟨oldCand root ext k⟩ then none else some (oldCand root ext k)
  | fuel + 1, k =>
    if fsExists fs ⟨oldCand root ext k⟩ then find_free_old_name fs root ext fuel (k + 1)
    else some (oldCand root ext k)

/-- The reserved manifest path for a (cleaned) directory. -/
def canonical_path (folder : String) (nested : Bool) : String :=
  folder ++ "/" ++ (if nested then nested_checksum_filename else main_checksum_filename)

/-- The body of `get_checksum_save_location` after `clean_filepath`. -/
def get_checksum_save_location_clean (fs : Fs) (f : String)
    (updating_only nested : Bool) : Option (Fs × String) :=
  let save_location := canonical_path f nested
  if fsExists fs save_location then
    match check_custom_md5file_header fs save_location nested with
    | none => none
    | some false => none
    | some true =>
      if updating_only then some (fs, save_location)
      else
        let se := splitext save_location.data
        match find_free_old_name fs se.1 se.2 fs.length 0 with
        | none => none
        | some old_name =>
          some (fsRename fs save_location ⟨old_name⟩, save_location)
  else some (fs, save_location)

/-- `get_checksum_save_location(folder, updating_only, nested)`: returns the
(possibly updated after a rename) filesystem together with the save path;
`none` models a raised exception (header mismatch ValueError, or the
IndexError from `clean_filepath`). -/
def get_checksum_save_location (fs : Fs) (folder : String)
    (updating_only : Bool) (nested : Bool := false) : Option (Fs × String) :=
  match clean_filepath folder false with
  | none => none
  | some f => get_checksum_save_location_clean fs f updating_only nested

/-- `extract_from_md5line(md5_line, "custom")`: NFC-normalize, then extract
the custom-format filepath and checksum. -/
def extract_from_md5line_custom (nfc : String → String) (md5_line : String) :
    Option (String × String) :=
  let l := nfc md5_line
  match CustomMD5Line.extract_filepath nfc l none, CustomMD5Line.extract_checksum l with
  | some fp, some ck => some (fp, ck)
  | _, _ => none

/-- The body of `extract_from_md5file`'s per-line loop for the custom
formats: skip header-ish and blank lines, otherwise parse.  The first
comparison of the source, `line[0] == "Ã¯"`, compares a single character to a
two-character string and is therefore always false in Python 3; it is kept
verbatim. -/
def extract_line_step (nfc : String → String) (line : List Char) :
    Option (Option (String × String)) :=
  let l := (nfc ⟨line⟩).data
  if l.take 1 = "Ã¯".data ∨ l.take 1 = [';'] ∨ l = ['\n'] then some none
  else
    match CustomMD5Line.extract_filepath nfc ⟨l⟩ none, CustomMD5Line.extract_checksum ⟨l⟩ with
    | some fp, some ck => some (some (fp, ck))
    | _, _ => none

/-- The per-line fold of `extract_from_md5file` over the file's lines. -/
def extract_lines (nfc : String → String) :
    List (List Char) → Option (List String × List String)
  | [] => some ([], [])
  | line :: rest =>
    match extract_line_step nfc line with
    | none => none
    | some none => extract_lines nfc rest
    | some (some (fp, ck)) =>
      match extract_lines nfc rest with
      | none => none
      | some (fps, cks) => some (fp :: fps, ck :: cks)

/-- `extract_from_md5file(md5_filepath, fmt)` for `fmt ∈ {custom,
custom_nested}`: header check, then per-line extraction; `none` models a
raised exception. -/
def extract_from_md5file (nfc : String → String) (fs : Fs) (md5_filepath : String)
    (nested : Bool) : Option (List String × List String) :=
  match fsGet fs md5_filepath with
  | none => none
  | some content =>
    match check_custom_md5file_header fs md5_filepath nested with
    | some true => extract_lines nfc (readlines content.data)
    | _ => none

/-- Python `os.path.split(p)` (POSIX). -/
def os_path_split (p : List Char) : List Char × List Char :=
  match findCharLast '/' p with
  | none => ([], p)
  | some i =>
    let head := p.take (i + 1)
    let tail := p.drop (i + 1)
    if head.any (fun c => c ≠ '/') then
      match dropTrailingSlashes head with
      | some h => (h, tail)
      | none => (head, tail)
    else (head, tail)

/-- `separate_by_dirs(filepaths, checksums)` from md5file_utils.py, processed
in the source's loop order; `Except` distinguishes the documented ValueError
(which, as proved below, is in fact unreachable). -/
def separate_by_dirs (filepaths checksums : List String) :
    Except String (List String × List (List String) × List (List String)) :=
  let rec go : List (String × String) → List String → List (List String) →
      List (List String) →
      Except String (List String × List (List String) × List (List String))
    | [], dirpaths, dfn, dck => Except.ok (dirpaths, dfn, dck)
    | (filepath, checksum) :: rest, dirpaths, dfn, dck =>
      let sp := os_path_split filepath.data
      let line_dirpath : String := ⟨sp.1⟩
      let filename : String := ⟨sp.2⟩
      match index_if_possible dirpaths line_dirpath with
      | none =>
        go rest (dirpaths ++ [line_dirpath]) (dfn ++ [[filename]]) (dck ++ [[checksum]])
      | some x =>
        match index_if_possible_nested dfn filename with
        | none =>
          go rest dirpaths (dfn.modify (fun l => l ++ [filename]) x)
            (dck.modify (fun l => l ++ [checksum]) x)
        | some _ =>
          -- the source tests `checksum != dirpath_checksums[y]`, a string
          -- against a list of strings; Python cross-type `!=` is always
          -- true, so reaching this branch raises
          Except.error "filepaths: contains identical filepaths with different checksums"
  go (filepaths.zip checksums) [] [] []

/-- `separate_by_uniqueness(filenames, checksums)` from md5file_utils.py. -/
def separate_by_uniqueness (filenames checksums : List String) :
    List String × List String × List String × List String :=
  let rec go : List (String × String) → List String → List String →
      List String → List String → List String × List String × List String × List String
    | [], un, uc, nn, nc => (un, uc, nn, nc)
    | (filename, checksum) :: rest, un, uc, nn, nc =>
      match index_if_possible nn filename with
      | some _ => go rest un uc (nn ++ [filename]) (nc ++ [checksum])
      | none =>
        match index_if_possible un filename with
        | none => go rest (un ++ [filename]) (uc ++ [checksum]) nn nc
        | some idx =>
          go rest (un.eraseIdx idx) (uc.eraseIdx idx)
            (nn ++ [un.getD idx ""] ++ [filename]) (nc ++ [uc.getD idx ""] ++ [checksum])
  go (filenames.zip checksums) [] [] [] []

/-- The existence-check fold of `finding_missing_files`. -/
def collect_missing (fs : Fs) (folder_path : String) :
    List String → Option (List String)
  | [] => some []
  | fp :: rest =>
    match concat_filepaths folder_path fp with
    | none => none
    | some full =>
      match collect_missing fs folder_path rest with
      | none => none
      | some ms => if fsExists fs full then some ms else some (fp :: ms)

/-- `finding_missing_files(folder_path, md5_filepath)` from md5file_utils.py:
the manifest filepaths whose on-disk counterpart does not exist. -/
def finding_missing_files (nfc : String → String) (fs : Fs)
    (folder_path md5_filepath : String) : Option (List String) :=
  match extract_from_md5file nfc fs md5_filepath false with
  | none => none
  | some (filepaths, _) => collect_missing fs folder_path filepaths

/-- The keep/remove fold of `remove_checksums` over the manifest body lines,
with the interactive `input()` loop modelled by the oracle `confirm`. -/
def partition_removals (nfc : String → String) (confirm : String → Bool)
    (filepaths : List String) (require_confirmation : Bool) :
    List (List Char) → Option (List (List Char) × List (List Char))
  | [] => some ([], [])
  | line :: rest =>
    match extract_from_md5line_custom nfc ⟨line⟩ with
    | none => none
    | some (fp, _) =>
      match partition_removals nfc confirm filepaths require_confirmation rest with
      | none => none
      | some (keep, removed) =>
        if fp ∈ filepaths then
          let removing := if ¬ require_confirmation then true else confirm ⟨line⟩
          if removing then some (keep, line :: removed)
          else some (line :: keep, removed)
        else some (line :: keep, removed)

/-- `remove_checksums(md5_filepath, filepaths, save_orig,
require_confirmation)` from md5file_utils.py.  The interactive `input()` loop
is modelled by the oracle `confirm` (one boolean answer per prompted line);
`none` models a raised exception. -/
def remove_checksums (nfc : String → String) (confirm : String → Bool) (fs : Fs)
    (md5_filepath : String) (filepaths : List String)
    (save_orig require_confirmation : Bool) : Option (Fs × String × List String) :=
  match fsGet fs md5_filepath with
  | none => none
  | some content =>
    let lines := readlines content.data
    let header := main_checksum_header.data ++ ['\n']
    if header ∉ lines then none
    else
      let body := lines.erase header
      match partition_removals nfc confirm filepaths require_confirmation body with
      | none => none
      | some (keep, removed) =>
        let lines_to_write := header :: keep
        match clean_filepath md5_filepath false with
        | none => none
        | some cleaned =>
          let save_path : String := ⟨(os_path_split cleaned.data).1⟩
          match get_checksum_save_location fs save_path (¬ save_orig) false with
          | none => none
          | some (fs1, save_location) =>
            let fs2 := append_unique_lines_to_file fs1 save_location
              (lines_to_write.map (fun l => (⟨l⟩ : String)))
            some (fs2, save_location, removed.map (fun l => (⟨l⟩ : String)))

/-! ## md5files/checksums.py -/

/-- Classification of one visited file by `verify_checksums`. -/
inductive FileClass where
  | skipped : FileClass
  | newFile : FileClass
  | passed : FileClass
  | failed : FileClass
deriving DecidableEq, Repr

/-- The per-file body of `verify_checksums`' inner loop: `hash` is the `md5`
function (hashing the file at the given path), `checksummed_filepaths` and
`saved_checksums` the parallel lists loaded from the manifest in use,
`root_filtered` the NFC/slash-normalized root-relative directory; `none`
models an IndexError on mismatched parallel lists. -/
def verify_file (nfc hash : String → String)
    (checksummed_filepaths saved_checksums : List String)
    (root root_filtered file0 : String) : Option FileClass :=
  let file := nfc file0
  let relative_filepath : String := root_filtered ++ "/" ++ file
  if is_checksum_filename file none then some .skipped
  else
    match index_if_possible checksummed_filepaths relative_filepath with
    | none => some .newFile
    | some i =>
      let checksum := hash (root ++ "/" ++ file)
      match saved_checksums.get? i with
      | none => none
      | some saved =>
        if pyUpper checksum.data ≠ pyUpper saved.data then some .failed
        else some .passed

/-- Outcome for one file in `_generate_checksums_subdir`. -/
inductive GenOutcome where
  | skippedFile : GenOutcome
  | emit (line : String) : GenOutcome
  | failedChecksum (diag : String) : GenOutcome
deriving DecidableEq, Repr

/-- Serialize one custom-format line for a processed file, as in the tail of
`_generate_checksums_subdir`'s loop body; `none` models a raised exception
inside `concat_filepaths`. -/
def mk_custom_line (root_filtered file c : String) : Option GenOutcome :=
  match concat_filepaths root_filtered file with
  | none => none
  | some line_path =>
    some (.emit (CustomMD5Line.get_custom_md5line_string line_path c ++ "\n"))

/-- The check `existing_filenames is not None and file in existing_filenames`
of `_generate_checksums_subdir`. -/
def in_existing (existing_filenames : Option (List String)) (file : String) : Bool :=
  match existing_filenames with
  | some ex => decide (file ∈ ex)
  | none => false

/-- The per-file body of `_generate_checksums_subdir`'s loop: resolve a
checksum by priority (ignore list / reserved name, already recorded, nested
manifest, unsorted unique partition, unsorted duplicate partition with
re-verification, fresh hash) and form the custom-format line; `none` models a
raised exception. -/
def generate_file (nfc hash : String → String) (root root_filtered : String)
    (nested_filenames nested_checksums : List String)
    (unsorted_filenames unsorted_checksums : List String)
    (unsorted_dupe_filenames unsorted_dupe_checksums : List String)
    (existing_filenames : Option (List String)) (files_to_ignore : List String)
    (file0 : String) : Option GenOutcome :=
  let file := nfc file0
  if file ∈ files_to_ignore ∨ is_checksum_filename file none then some .skippedFile
  else if in_existing existing_filenames file then some .skippedFile
  else
    match index_if_possible nested_filenames file with
    | some i =>
      match nested_checksums.get? i with
      | none => none
      | some c => mk_custom_line root_filtered file c
    | none =>
      match index_if_possible unsorted_filenames file with
      | some i =>
        match unsorted_checksums.get? i with
        | none => none
        | some c => mk_custom_line root_filtered file c
      | none =>
        if file ∈ unsorted_dupe_filenames then
          let checksum := hash (root ++ "/" ++ file)
          let matching_filenames :=
            ((unsorted_dupe_filenames.zip unsorted_dupe_checksums).filter
              (fun p => p.2 = checksum)).map Prod.fst
          if file ∉ matching_filenames then
            some (.failedChecksum ("'" ++ file ++ "' - (" ++ root_filtered ++ ")"))
          else mk_custom_line root_filtered file checksum
        else mk_custom_line root_filtered file (hash (root ++ "/" ++ file))

/-- `remove_missing_checksums(folder_path, save_orig, require_confirmation)`
from checksums.py: returns the number of removed lines together with the
resulting filesystem; `none` models a raised exception. -/
def remove_missing_checksums (nfc : String → String) (confirm : String → Bool)
    (fs : Fs) (folder_path : String) (save_orig require_confirmation : Bool) :
    Option (Nat × Fs) :=
  match get_checksum_save_location fs folder_path true false with
  | none => none
  | some (fs0, checksum_filepath) =>
    if ¬ fsExists fs0 checksum_filepath then some (0, fs0)
    else
      match finding_missing_files nfc fs0 folder_path checksum_filepath with
      | none => none
      | some missing =>
        match remove_checksums nfc confirm fs0 checksum_filepath missing
            save_orig require_confirmation with
        | none => none
        | some (fs', _, removed) => some (removed.length, fs')

/-! ## Derived notions used in the pruning specification -/

/-- The filepath parsed from a custom-format manifest line (defaulting to
`""`; used only where parsing is known to succeed). -/
def fpOfD (nfc : String → String) (l : List Char) : String :=
  (CustomMD5Line.extract_filepath nfc ⟨l⟩ none).getD ""

/-- The checksum parsed from a custom-format manifest line. -/
def ckOfD (l : List Char) : String :=
  (CustomMD5Line.extract_checksum ⟨l⟩).getD ""

/-- A manifest line whose recorded path, joined to `folder`, is missing from
the filesystem. -/
def missingB (nfc : String → String) (fs : Fs) (folder : String)
    (l : List Char) : Bool :=
  !(fsExists fs ((concat_filepaths folder (fpOfD nfc l)).getD ""))

/-- A proper text line: ends in its only newline. -/
def isLine (l : List Char) : Prop :=
  ∃ a, l = a ++ ['\n'] ∧ '\n' ∉ a

/-- Concrete manifest content for exercising the pruning pipeline. -/
def c6content : String :=
  "; main_checksum\n./a -> 00000000000000000000000000000000\n./b -> 11111111111111111111111111111111\n"

/-- The two manifest body lines of `c6content`. -/
def c6rest : List (List Char) :=
  [("./a -> 00000000000000000000000000000000\n" : String).data,
   ("./b -> 11111111111111111111111111111111\n" : String).data]

/-- A filesystem holding the manifest of directory `r` and the file `r/a`
(the manifest's `./b` is missing). -/
def c6fs : Fs := [("r/.main_checksum.txt", c6content), ("r/a", "x")]

/-- Value of a decimal digit character (inverse of `digitChar`). -/
def digitVal (c : Char) : Nat :=
  if c = '0' then 0
  else if c = '1' then 1
  else if c = '2' then 2
  else if c = '3' then 3
  else if c = '4' then 4
  else if c = '5' then 5
  else if c = '6' then 6
  else if c = '7' then 7
  else if c = '8' then 8
  else 9

/-- Parse a decimal digit string back to a natural number. -/
def parseDec (l : List Char) : Nat :=
  l.foldl (fun a c => a * 10 + digitVal c) 0

/-- A valid 32-hex checksum string. -/
def ValidChecksum (cs : String) : Prop :=
  cs.data.length = 32 ∧ ∀ c ∈ cs.data, isHexChar c

/-! ## Filesystem lemmas -/

theorem fsGet_fsErase_self (fs : Fs) (p : String) : fsGet (fsErase fs p) p = none := by
  induction fs with
  | nil => rfl
  | cons e t ih =>
    obtain ⟨q, c⟩ := e
    by_cases hq : q = p
    · simpa [fsErase, hq] using ih
    · simpa [fsErase, fsGet, hq] using ih

theorem fsGet_fsErase_ne (fs : Fs) (p q : String) (h : q ≠ p) :
    fsGet (fsErase fs p) q = fsGet fs q := by
  induction fs with
  | nil => rfl
  | cons e t ih =>
    obtain ⟨r, c⟩ := e
    by_cases hr : r = p
    · subst hr
      simpa [fsErase, fsGet, Ne.symm h] using ih
    · by_cases hrq : r = q
      · subst hrq
        simp [fsErase, List.filter_cons, hr, fsGet]
      · simpa [fsErase, fsGet, hr, hrq] using ih

theorem fsGet_fsSet_self (fs : Fs) (p : String) (c : String) :
    fsGet (fsSet fs p c) p = some c := by
  simp [fsSet, fsGet]

theorem fsGet_fsSet_ne (fs : Fs) (p : String) (c : String) (q : String) (h : q ≠ p) :
    fsGet (fsSet fs p c) q = fsGet fs q := by
  rw [fsSet, fsGet]
  rw [if_neg (Ne.symm h)]
  exact fsGet_fsErase_ne fs p q h

theorem fsExists_mem_keys (fs : Fs) (p : String) (h : fsExists fs p = true) :
    p ∈ fs.map Prod.fst := by
  induction fs with
  | nil => simp [fsExists, fsGet] at h
  | cons e t ih =>
    obtain ⟨q, c⟩ := e
    by_cases hq : q = p
    · simp [hq]
    · rw [fsExists] at h ih
      rw [fsGet, if_neg hq] at h
      simpa using Or.inr (ih h)

/-! ## Decimal representation: round-trip and injectivity -/

theorem digitVal_digitChar : ∀ d : Nat, d < 10 → digitVal (digitChar d) = d := by
  decide

theorem natToDecCore_stable : ∀ (f1 f2 n : Nat), n < f1 → n < f2 →
    natToDecCore f1 n = natToDecCore f2 n := by
  intro f1
  induction f1 with
  | zero => intro f2 n h1 _; omega
  | succ f ih =>
    intro f2 n h1 h2
    cases f2 with
    | zero => omega
    | succ g =>
      rw [natToDecCore, natToDecCore]
      by_cases hn : n < 10
      · rw [if_pos hn, if_pos hn]
      · rw [if_neg hn, if_neg hn]
        have hd : n / 10 < n := Nat.div_lt_self (by omega) (by omega)
        rw [ih g (n / 10) (by omega) (by omega)]

theorem foldl_natToDecCore : ∀ (fuel n : Nat), n < fuel → ∀ a : Nat,
    (natToDecCore fuel n).foldl (fun a c => a * 10 + digitVal c) a
      = a * 10 ^ (natToDecCore fuel n).length + n := by
  intro fuel
  induction fuel with
  | zero => intro n h; omega
  | succ f ih =>
    intro n h a
    rw [natToDecCore]
    by_cases hn : n < 10
    · rw [if_pos hn]
      simp only [List.foldl_cons, List.foldl_nil, List.length_cons, List.length_nil,
        pow_one, pow_zero]
      rw [digitVal_digitChar n hn]
      ring
    · rw [if_neg hn]
      have hd : n / 10 < f := by
        have hlt : n / 10 < n := Nat.div_lt_self (by omega) (by omega)
        omega
      rw [List.foldl_append, ih (n / 10) hd a]
      simp only [List.foldl_cons, List.foldl_nil, List.length_append,
        List.length_cons, List.length_nil]
      rw [digitVal_digitChar (n % 10) (Nat.mod_lt _ (by omega))]
      calc (a * 10 ^ (natToDecCore f (n / 10)).length + n / 10) * 10 + n % 10
          = a * (10 ^ (natToDecCore f (n / 10)).length * 10)
            + (n / 10 * 10 + n % 10) := by ring
        _ = a * 10 ^ ((natToDecCore f (n / 10)).length + (0 + 1)) + n := by
            have h1 : n / 10 * 10 + n % 10 = n := by omega
            have h2 : (10 : Nat) ^ ((natToDecCore f (n / 10)).length + (0 + 1))
                = 10 ^ (natToDecCore f (n / 10)).length * 10 := by
              rw [show (natToDecCore f (n / 10)).length + (0 + 1)
                  = (natToDecCore f (n / 10)).length + 1 from by omega, pow_succ]
            rw [h1, h2]

theorem parseDec_natToDec (n : Nat) : parseDec (natToDec n) = n := by
  rw [parseDec, natToDec]
  have := foldl_natToDecCore (n + 1) n (by omega) 0
  simpa using this

theorem natToDec_inj {m n : Nat} (h : natToDec m = natToDec n) : m = n := by
  have hm := parseDec_natToDec m
  have hn := parseDec_natToDec n
  rw [h] at hm
  omega

theorem natToDec_length_pos (n : Nat) : 0 < (natToDec n).length := by
  rw [natToDec, natToDecCore]
  by_cases hn : n < 10
  · rw [if_pos hn]
    simp
  · rw [if_neg hn]
    simp

/-! ## Candidate `_old` names: injectivity and the free-name search -/

theorem oldCand_inj (root ext : List Char) (a b : Nat)
    (h : oldCand root ext a = oldCand root ext b) : a = b := by
  cases a with
  | zero =>
    cases b with
    | zero => rfl
    | succ j =>
      exfalso
      have hlen := congrArg List.length h
      simp only [oldCand, List.length_append, List.length_cons] at hlen
      have := natToDec_length_pos (j + 1)
      omega
  | succ i =>
    cases b with
    | zero =>
      exfalso
      have hlen := congrArg List.length h
      simp only [oldCand, List.length_append, List.length_cons] at hlen
      have := natToDec_length_pos (i + 1)
      omega
    | succ j =>
      rw [oldCand, oldCand] at h
      have h2 := List.append_cancel_left h
      simp only [List.cons.injEq, true_and] at h2
      have hlen := congrArg List.length h2
      simp only [List.length_append, List.length_cons] at hlen
      have h3 := (List.append_inj h2 (by omega)).1
      have := natToDec_inj h3
      omega

theorem find_free_old_success (fs : Fs) (root ext : List Char) :
    ∀ (fuel k : Nat),
      (∃ j, k ≤ j ∧ j ≤ k + fuel ∧ fsExists fs ⟨oldCand root ext j⟩ = false) →
      ∃ j, find_free_old_name fs root ext fuel k = some (oldCand root ext j) ∧
        fsExists fs ⟨oldCand root ext j⟩ = false := by
  intro fuel
  induction fuel with
  | zero =>
    intro k hex
    obtain ⟨j, hk, hj, hfree⟩ := hex
    have hjk : j = k := by omega
    subst hjk
    rw [find_free_old_name, if_neg (by simp [hfree])]
    exact ⟨j, rfl, hfree⟩
  | succ f ih =>
    intro k hex
    by_cases hk : fsExists fs ⟨oldCand root ext k⟩ = true
    · rw [find_free_old_name, if_pos hk]
      apply ih
      obtain ⟨j, hjk, hju, hfree⟩ := hex
      refine ⟨j, ?_, by omega, hfree⟩
      rcases Nat.eq_or_lt_of_le hjk with he | hl
      · exfalso
        rw [← he] at hfree
        rw [hk] at hfree
        cases hfree
      · omega
    · rw [find_free_old_name, if_neg hk]
      exact ⟨k, rfl, by simpa using hk⟩

theorem exists_free_cand (fs : Fs) (root ext : List Char) :
    ∃ j, j ≤ fs.length ∧ fsExists fs ⟨oldCand root ext j⟩ = false := by
  by_contra hcon
  push_neg at hcon
  have hall : ∀ j, j ≤ fs.length → fsExists fs ⟨oldCand root ext j⟩ = true := by
    intro j hj
    have := hcon j hj
    cases hb : fsExists fs ⟨oldCand root ext j⟩ with
    | false => exact absurd hb this
    | true => rfl
  have hinj : Function.Injective (fun j => (⟨oldCand root ext j⟩ : String)) := by
    intro a b hab
    exact oldCand_inj root ext a b (congrArg String.data hab)
  have hnd : ((List.range (fs.length + 1)).map
      (fun j => (⟨oldCand root ext j⟩ : String))).Nodup :=
    (List.nodup_range _).map hinj
  have hsub : ∀ x ∈ (List.range (fs.length + 1)).map
      (fun j => (⟨oldCand root ext j⟩ : String)), x ∈ fs.map Prod.fst := by
    intro x hx
    rw [List.mem_map] at hx
    obtain ⟨j, hj, rfl⟩ := hx
    rw [List.mem_range] at hj
    exact fsExists_mem_keys fs _ (hall j (by omega))
  have h1 : ((List.range (fs.length + 1)).map
      (fun j => (⟨oldCand root ext j⟩ : String))).toFinset.card = fs.length + 1 := by
    rw [List.toFinset_card_of_nodup hnd]
    simp
  have h2 : ((List.range (fs.length + 1)).map
      (fun j => (⟨oldCand root ext j⟩ : String))).toFinset ⊆
      (fs.map Prod.fst).toFinset := by
    intro x hx
    rw [List.mem_toFinset] at hx ⊢
    exact hsub x hx
  have h3 := Finset.card_le_card h2
  have h4 : (fs.map Prod.fst).toFinset.card ≤ fs.length := by
    have := List.toFinset_card_le (fs.map Prod.fst)
    simpa using this
  omega

/-! ## Basic lemmas about the primitives -/

theorem index_if_possible_nested_eq_none (a : List (List String)) (x : String) :
    index_if_possible_nested a x = none := by
  induction a with
  | nil => rfl
  | cons h t ih => simp [index_if_possible_nested, ih]

theorem index_if_possible_eq_none_iff (a : List String) (x : String) :
    index_if_possible a x = none ↔ x ∉ a := by
  induction a with
  | nil => simp [index_if_possible]
  | cons h t ih =>
    simp only [index_if_possible, List.mem_cons]
    by_cases hx : h = x
    · simp [hx]
    · simp [hx, Option.map_eq_none', ih, Ne.symm hx]

/-! ## C1: separate_by_dirs conflict detection -/

theorem separate_by_dirs_go_ok (l : List (String × String)) :
    ∀ d f c, ∃ r, separate_by_dirs.go l d f c = Except.ok r := by
  induction l with
  | nil => intro d f c; exact ⟨_, rfl⟩
  | cons p t ih =>
    intro d f c
    obtain ⟨fp, ck⟩ := p
    rw [separate_by_dirs.go]
    split
    · exact ih _ _ _
    · rw [index_if_possible_nested_eq_none]
      exact ih _ _ _

/-- C1: the claim states that `separate_by_dirs` raises `DataConflictError`
(a `ValueError`) exactly when two entries share a (directory, filename) pair
with differing checksums.  In the source the duplicate-name lookup
`index_if_possible(dirpath_filenames, filename)` searches the list of
per-directory filename *lists* for the filename *string*; Python cross-type
equality is always false, so the lookup always returns -1, the conflict
branch is unreachable, and no input ever raises.  First part: no input
raises; second part: on two entries sharing `(a, f.txt)` with different
checksums the function silently records the filename twice. -/
theorem separate_by_dirs_conflict_branch_unreachable :
    (∀ filepaths checksums : List String,
      ∃ r, separate_by_dirs filepaths checksums = Except.ok r) ∧
    separate_by_dirs ["a/f.txt", "a/f.txt"]
        ["00000000000000000000000000000000", "11111111111111111111111111111111"] =
      Except.ok (["a"], [["f.txt", "f.txt"]],
        [["00000000000000000000000000000000", "11111111111111111111111111111111"]]) := by
  refine ⟨fun fps cks => separate_by_dirs_go_ok _ _ _ _, ?_⟩
  rfl

/-! ## C5: separate_by_uniqueness partition invariant -/

theorem take_getD_drop {α : Type} (l : List α) (i : Nat) (d : α) (h : i < l.length) :
    l.take i ++ l.getD i d :: l.drop (i + 1) = l := by
  induction l generalizing i with
  | nil => simp at h
  | cons a t ih =>
    cases i with
    | zero => simp [List.getD]
    | succ j =>
      simp only [List.take_succ_cons, List.drop_succ_cons, List.getD_cons_succ,
        List.cons_append, List.cons.injEq, true_and]
      exact ih j (by simpa using h)

theorem eraseIdx_concat {α : Type} (pre : List α) (x : α) (post : List α) :
    (pre ++ x :: post).eraseIdx pre.length = pre ++ post := by
  induction pre with
  | nil => simp [List.eraseIdx]
  | cons a t ih => simpa [List.eraseIdx] using ih

theorem getD_concat {α : Type} (pre : List α) (x : α) (post : List α) (d : α) :
    (pre ++ x :: post).getD pre.length d = x := by
  induction pre with
  | nil => simp [List.getD]
  | cons a t ih => simpa [List.getD] using ih

theorem iip_some_decomp (a : List String) (x : String) (i : Nat)
    (h : index_if_possible a x = some i) :
    i < a.length ∧ a.take i ++ x :: a.drop (i + 1) = a := by
  induction a generalizing i with
  | nil => simp [index_if_possible] at h
  | cons b t ih =>
    by_cases hb : b = x
    · simp only [index_if_possible, if_pos hb, Option.some.injEq] at h
      subst hb
      subst h
      simp
    · simp only [index_if_possible, if_neg hb, Option.map_eq_some'] at h
      obtain ⟨j, hj, rfl⟩ := h
      obtain ⟨hlt, hdec⟩ := ih j hj
      constructor
      · simpa using Nat.succ_lt_succ hlt
      · simpa [List.take_succ_cons, List.drop_succ_cons] using hdec

theorem iip_some_mem (a : List String) (x : String) (i : Nat)
    (h : index_if_possible a x = some i) : x ∈ a := by
  obtain ⟨_, hdec⟩ := iip_some_decomp a x i h
  rw [← hdec]
  exact List.mem_append_right _ (List.mem_cons_self _ _)

theorem count_append_one {α : Type} [BEq α] [LawfulBEq α] [DecidableEq α]
    (l : List α) (x y : α) :
    (l ++ [x]).count y = l.count y + if y = x then 1 else 0 := by
  by_cases h : y = x
  · simp [List.count_append, h]
  · simp [List.count_append, h, Ne.symm h]

theorem count_cons_one {α : Type} [BEq α] [LawfulBEq α] [DecidableEq α]
    (l : List α) (x y : α) :
    (x :: l).count y = l.count y + if y = x then 1 else 0 := by
  by_cases h : y = x
  · simp [List.count_cons, h]
  · simp [List.count_cons, h, Ne.symm h]

theorem count_zip_le_count_left (a b : List String) (x : String × String) :
    (a.zip b).count x ≤ a.count x.1 := by
  induction a generalizing b with
  | nil => simp
  | cons p t ih =>
    cases b with
    | nil => simp
    | cons q s =>
      obtain ⟨x1, x2⟩ := x
      have hih : (t.zip s).count (x1, x2) ≤ t.count x1 := ih s
      show ((p, q) :: t.zip s).count (x1, x2) ≤ (p :: t).count x1
      rw [count_cons_one, count_cons_one]
      have hle : (if (x1, x2) = (p, q) then 1 else 0) ≤ (if x1 = p then 1 else 0) := by
        by_cases h : (x1, x2) = (p, q)
        · obtain ⟨h1, h2⟩ := Prod.mk.injEq .. ▸ h
          simp [h, h1, h2]
        · simp [h]
      omega

theorem sbu_go_spec (l : List (String × String)) :
    ∀ (un uc nn nc run ruc rnn rnc : List String),
    un.length = uc.length → nn.length = nc.length →
    un.Nodup → (∀ n, n ∈ un → n ∉ nn) → (∀ n, n ∈ nn → 2 ≤ nn.count n) →
    separate_by_uniqueness.go l un uc nn nc = (run, ruc, rnn, rnc) →
    run.length = ruc.length ∧ rnn.length = rnc.length ∧
    (∀ n, run.count n =
      if un.count n + nn.count n + (l.map Prod.fst).count n = 1 then 1 else 0) ∧
    (∀ n, rnn.count n =
      if 2 ≤ un.count n + nn.count n + (l.map Prod.fst).count n
      then un.count n + nn.count n + (l.map Prod.fst).count n else 0) ∧
    (∀ p : String × String,
      (run.zip ruc).count p + (rnn.zip rnc).count p =
        (un.zip uc).count p + (nn.zip nc).count p + l.count p) := by
  induction l with
  | nil =>
    intro un uc nn nc run ruc rnn rnc h1 h2 h3 h4 h5 hr
    rw [separate_by_uniqueness.go] at hr
    injection hr with e1 hr2
    injection hr2 with e2 hr3
    injection hr3 with e3 e4
    subst e1; subst e2; subst e3; subst e4
    refine ⟨h1, h2, ?_, ?_, ?_⟩
    · intro n
      simp only [List.map_nil, List.count_nil, Nat.add_zero]
      by_cases hmem : n ∈ un
      · have hc1 : un.count n = 1 := List.count_eq_one_of_mem h3 hmem
        have hc0 : nn.count n = 0 := List.count_eq_zero.mpr (h4 n hmem)
        rw [hc1, hc0]
        norm_num
      · have hc0 : un.count n = 0 := List.count_eq_zero.mpr hmem
        rw [hc0]
        by_cases hmem2 : n ∈ nn
        · have h2le : 2 ≤ nn.count n := h5 n hmem2
          rw [if_neg (by omega)]
        · have hz : nn.count n = 0 := List.count_eq_zero.mpr hmem2
          rw [hz]
          norm_num
    · intro n
      simp only [List.map_nil, List.count_nil, Nat.add_zero]
      by_cases hmem2 : n ∈ nn
      · have h2le : 2 ≤ nn.count n := h5 n hmem2
        have hc0 : un.count n = 0 := by
          by_cases hmem : n ∈ un
          · exact absurd hmem2 (h4 n hmem)
          · exact List.count_eq_zero.mpr hmem
        rw [hc0, if_pos (by omega)]
        omega
      · have hn0 : nn.count n = 0 := List.count_eq_zero.mpr hmem2
        have hle : un.count n ≤ 1 := List.nodup_iff_count_le_one.mp h3 n
        rw [hn0, if_neg (by omega)]
    · intro p
      simp
  | cons hd tl ih =>
    intro un uc nn nc run ruc rnn rnc h1 h2 h3 h4 h5 hr
    obtain ⟨fp, c⟩ := hd
    rw [separate_by_uniqueness.go] at hr
    cases hA : index_if_possible nn fp with
    | some j =>
      rw [hA] at hr
      have hfpnn : fp ∈ nn := iip_some_mem _ _ _ hA
      have hinv : ∀ n, n ∈ un → n ∉ nn ++ [fp] := by
        intro n hn
        simp only [List.mem_append, List.mem_singleton, not_or]
        exact ⟨h4 n hn, fun he => (h4 n hn) (he ▸ hfpnn)⟩
      have hinv5 : ∀ n, n ∈ nn ++ [fp] → 2 ≤ (nn ++ [fp]).count n := by
        intro n hn
        have hn' : n ∈ nn := by
          rcases List.mem_append.mp hn with h | h
          · exact h
          · simpa using (List.mem_singleton.mp h) ▸ hfpnn
        have := h5 n hn'
        rw [List.count_append]
        omega
      obtain ⟨g1, g2, g3, g4, g5⟩ := ih un uc (nn ++ [fp]) (nc ++ [c]) run ruc rnn rnc
        h1 (by simp [h2]) h3 hinv hinv5 hr
      refine ⟨g1, g2, ?_, ?_, ?_⟩
      · intro n
        rw [g3 n]
        have hT : un.count n + (nn ++ [fp]).count n + (tl.map Prod.fst).count n =
            un.count n + nn.count n + (((fp, c) :: tl).map Prod.fst).count n := by
          simp only [count_append_one, List.map_cons, count_cons_one]
          omega
        rw [hT]
      · intro n
        rw [g4 n]
        have hT : un.count n + (nn ++ [fp]).count n + (tl.map Prod.fst).count n =
            un.count n + nn.count n + (((fp, c) :: tl).map Prod.fst).count n := by
          simp only [count_append_one, List.map_cons, count_cons_one]
          omega
        rw [hT]
      · intro p
        rw [g5 p]
        have hz : ((nn ++ [fp]).zip (nc ++ [c])) = nn.zip nc ++ [(fp, c)] := by
          rw [List.zip_append h2]
          rfl
        rw [hz]
        simp only [count_append_one, count_cons_one]
        omega
    | none =>
      rw [hA] at hr
      cases hB : index_if_possible un fp with
      | none =>
        rw [hB] at hr
        have hfpun : fp ∉ un := (index_if_possible_eq_none_iff _ _).mp hB
        have hfpnn : fp ∉ nn := (index_if_possible_eq_none_iff _ _).mp hA
        have hinv3 : (un ++ [fp]).Nodup := by
          simp [List.nodup_append, h3, hfpun]
        have hinv4 : ∀ n, n ∈ un ++ [fp] → n ∉ nn := by
          intro n hn
          rcases List.mem_append.mp hn with h | h
          · exact h4 n h
          · exact (List.mem_singleton.mp h) ▸ hfpnn
        obtain ⟨g1, g2, g3, g4, g5⟩ := ih (un ++ [fp]) (uc ++ [c]) nn nc run ruc rnn rnc
          (by simp [h1]) h2 hinv3 hinv4 h5 hr
        refine ⟨g1, g2, ?_, ?_, ?_⟩
        · intro n
          rw [g3 n]
          have hT : (un ++ [fp]).count n + nn.count n + (tl.map Prod.fst).count n =
              un.count n + nn.count n + (((fp, c) :: tl).map Prod.fst).count n := by
            simp only [count_append_one, List.map_cons, count_cons_one]
            omega
          rw [hT]
        · intro n
          rw [g4 n]
          have hT : (un ++ [fp]).count n + nn.count n + (tl.map Prod.fst).count n =
              un.count n + nn.count n + (((fp, c) :: tl).map Prod.fst).count n := by
            simp only [count_append_one, List.map_cons, count_cons_one]
            omega
          rw [hT]
        · intro p
          rw [g5 p]
          have hz : ((un ++ [fp]).zip (uc ++ [c])) = un.zip uc ++ [(fp, c)] := by
            rw [List.zip_append h1]
            rfl
          rw [hz]
          simp only [count_append_one, count_cons_one]
          omega
      | some idx =>
        rw [hB] at hr
        simp only at hr
        obtain ⟨hlt, hdec⟩ := iip_some_decomp un fp idx hB
        have hltc : idx < uc.length := h1 ▸ hlt
        have hdecC := take_getD_drop uc idx "" hltc
        set pre := un.take idx with hpre
        set post := un.drop (idx + 1) with hpost
        set preC := uc.take idx with hpreC
        set c0 := uc.getD idx "" with hc0
        set postC := uc.drop (idx + 1) with hpostC
        have hlenpre : pre.length = idx := by
          rw [hpre, List.length_take]
          omega
        have hlenpreC : preC.length = idx := by
          rw [hpreC, List.length_take]
          omega
        have hgetD : un.getD idx "" = fp := by
          conv_lhs => rw [← hdec]
          rw [← hlenpre]
          exact getD_concat pre fp post ""
        have herase : un.eraseIdx idx = pre ++ post := by
          conv_lhs => rw [← hdec, ← hlenpre]
          exact eraseIdx_concat pre fp post
        have heraseC : uc.eraseIdx idx = preC ++ postC := by
          conv_lhs => rw [← hdecC, ← hlenpreC]
          exact eraseIdx_concat preC c0 postC
        rw [hgetD, hc0, herase, heraseC] at hr
        have hnodup : (pre ++ post).Nodup := by
          have hsub : (pre ++ post).Sublist (pre ++ fp :: post) :=
            List.Sublist.append_left (List.sublist_cons_self _ _) pre
          exact (hdec ▸ h3).sublist hsub
        have hfpout : fp ∉ pre ++ post := by
          have := hdec ▸ h3
          rw [List.nodup_append] at this
          obtain ⟨_, hnd2, hdisj⟩ := this
          rw [List.nodup_cons] at hnd2
          intro hmem
          rcases List.mem_append.mp hmem with h | h
          · exact hdisj h (List.mem_cons_self _ _)
          · exact hnd2.1 h
        have hinv3 : ∀ n, n ∈ pre ++ post → n ∉ nn ++ [fp] ++ [fp] := by
          intro n hn
          have hnun : n ∈ un := by
            rw [← hdec]
            rcases List.mem_append.mp hn with h | h
            · exact List.mem_append_left _ h
            · exact List.mem_append_right _ (List.mem_cons_of_mem _ h)
          have hne : n ≠ fp := fun he => hfpout (he ▸ hn)
          simp only [List.append_assoc, List.mem_append, List.mem_singleton, not_or]
          exact ⟨h4 n hnun, hne, hne⟩
        have hinv5 : ∀ n, n ∈ nn ++ [fp] ++ [fp] → 2 ≤ (nn ++ [fp] ++ [fp]).count n := by
          intro n hn
          simp only [List.append_assoc, List.mem_append, List.mem_singleton] at hn
          rcases hn with h | h | h
          · have := h5 n h
            simp [List.count_append]
            omega
          · subst h
            simp [List.count_append]
          · subst h
            simp [List.count_append]
        have hlens : (pre ++ post).length = (preC ++ postC).length := by
          have e1 : (pre ++ fp :: post).length = (preC ++ c0 :: postC).length := by
            rw [hdec, hdecC]; exact h1
          simp only [List.length_append, List.length_cons] at e1
          simp only [List.length_append]
          omega
        obtain ⟨g1, g2, g3, g4, g5⟩ := ih (pre ++ post) (preC ++ postC)
          (nn ++ [fp] ++ [fp]) (nc ++ [c0] ++ [c]) run ruc rnn rnc
          hlens (by simp [h2]) hnodup hinv3 hinv5 hr
        have hcntun : ∀ n : String, un.count n =
            (pre ++ post).count n + (if n = fp then 1 else 0) := by
          intro n
          conv_lhs => rw [← hdec]
          simp only [List.count_append, count_cons_one]
          omega
        refine ⟨g1, g2, ?_, ?_, ?_⟩
        · intro n
          rw [g3 n]
          have hT : (pre ++ post).count n + (nn ++ [fp] ++ [fp]).count n +
              (tl.map Prod.fst).count n =
              un.count n + nn.count n + (((fp, c) :: tl).map Prod.fst).count n := by
            rw [hcntun n]
            simp only [count_append_one, List.map_cons, count_cons_one]
            omega
          rw [hT]
        · intro n
          rw [g4 n]
          have hT : (pre ++ post).count n + (nn ++ [fp] ++ [fp]).count n +
              (tl.map Prod.fst).count n =
              un.count n + nn.count n + (((fp, c) :: tl).map Prod.fst).count n := by
            rw [hcntun n]
            simp only [count_append_one, List.map_cons, count_cons_one]
            omega
          rw [hT]
        · intro p
          rw [g5 p]
          have hzun : un.zip uc = pre.zip preC ++ (fp, c0) :: post.zip postC := by
            conv_lhs => rw [← hdec, ← hdecC]
            rw [List.zip_append (by rw [hlenpre, hlenpreC])]
            rfl
          have hzun' : (pre ++ post).zip (preC ++ postC) =
              pre.zip preC ++ post.zip postC := by
            rw [List.zip_append (by rw [hlenpre, hlenpreC])]
          have hznn : (nn ++ [fp] ++ [fp]).zip (nc ++ [c0] ++ [c]) =
              nn.zip nc ++ [(fp, c0), (fp, c)] := by
            rw [List.append_assoc, List.append_assoc, List.zip_append h2]
            rfl
          rw [hzun, hzun', hznn]
          simp only [List.count_append, count_append_one, count_cons_one, List.count_nil]
          omega

/-- C5: `separate_by_uniqueness` partitions its input so that every filename
occurring exactly once ends in the unique partition (paired with its one
checksum), every filename occurring twice or more ends entirely in the
duplicate partition with all of its checksums preserved, and the two
partitions are disjoint by name and jointly cover every input occurrence
exactly once (multiset equality on (filename, checksum) pairs). -/
theorem separate_by_uniqueness_partition (filenames checksums : List String) :
    (separate_by_uniqueness filenames checksums).1.length =
      (separate_by_uniqueness filenames checksums).2.1.length ∧
    (separate_by_uniqueness filenames checksums).2.2.1.length =
      (separate_by_uniqueness filenames checksums).2.2.2.length ∧
    (∀ n, (separate_by_uniqueness filenames checksums).1.count n =
      if ((filenames.zip checksums).map Prod.fst).count n = 1 then 1 else 0) ∧
    (∀ n, (separate_by_uniqueness filenames checksums).2.2.1.count n =
      if 2 ≤ ((filenames.zip checksums).map Prod.fst).count n
      then ((filenames.zip checksums).map Prod.fst).count n else 0) ∧
    (∀ p : String × String,
      ((separate_by_uniqueness filenames checksums).1.zip
        (separate_by_uniqueness filenames checksums).2.1).count p +
      ((separate_by_uniqueness filenames checksums).2.2.1.zip
        (separate_by_uniqueness filenames checksums).2.2.2).count p =
      (filenames.zip checksums).count p) ∧
    (∀ n c, ((filenames.zip checksums).map Prod.fst).count n = 1 →
      (n, c) ∈ filenames.zip checksums →
      (n, c) ∈ (separate_by_uniqueness filenames checksums).1.zip
        (separate_by_uniqueness filenames checksums).2.1) ∧
    (∀ n c, 2 ≤ ((filenames.zip checksums).map Prod.fst).count n →
      n ∉ (separate_by_uniqueness filenames checksums).1 ∧
      ((separate_by_uniqueness filenames checksums).2.2.1.zip
        (separate_by_uniqueness filenames checksums).2.2.2).count (n, c) =
        (filenames.zip checksums).count (n, c)) := by
  have hgo : separate_by_uniqueness filenames checksums =
      separate_by_uniqueness.go (filenames.zip checksums) [] [] [] [] := rfl
  obtain ⟨g1, g2, g3, g4, g5⟩ := sbu_go_spec (filenames.zip checksums) [] [] [] []
    (separate_by_uniqueness filenames checksums).1
    (separate_by_uniqueness filenames checksums).2.1
    (separate_by_uniqueness filenames checksums).2.2.1
    (separate_by_uniqueness filenames checksums).2.2.2
    rfl rfl List.nodup_nil (by simp) (by simp) (by rw [← hgo])
  have hc3 : ∀ n, (separate_by_uniqueness filenames checksums).1.count n =
      if ((filenames.zip checksums).map Prod.fst).count n = 1 then 1 else 0 := by
    intro n
    have := g3 n
    simpa using this
  have hc4 : ∀ n, (separate_by_uniqueness filenames checksums).2.2.1.count n =
      if 2 ≤ ((filenames.zip checksums).map Prod.fst).count n
      then ((filenames.zip checksums).map Prod.fst).count n else 0 := by
    intro n
    have := g4 n
    simpa using this
  have hc5 : ∀ p : String × String,
      ((separate_by_uniqueness filenames checksums).1.zip
        (separate_by_uniqueness filenames checksums).2.1).count p +
      ((separate_by_uniqueness filenames checksums).2.2.1.zip
        (separate_by_uniqueness filenames checksums).2.2.2).count p =
      (filenames.zip checksums).count p := by
    intro p
    have := g5 p
    simpa using this
  refine ⟨g1, g2, hc3, hc4, hc5, ?_, ?_⟩
  · intro n c hcount hmem
    have hnn0 : (separate_by_uniqueness filenames checksums).2.2.1.count n = 0 := by
      rw [hc4 n, if_neg (by omega)]
    have hzle := count_zip_le_count_left
      (separate_by_uniqueness filenames checksums).2.2.1
      (separate_by_uniqueness filenames checksums).2.2.2 (n, c)
    have hzero : ((separate_by_uniqueness filenames checksums).2.2.1.zip
        (separate_by_uniqueness filenames checksums).2.2.2).count (n, c) = 0 := by
      have : (separate_by_uniqueness filenames checksums).2.2.1.count (n, c).1 = 0 := hnn0
      omega
    have hpos : 0 < (filenames.zip checksums).count (n, c) :=
      List.count_pos_iff_mem.mpr hmem
    have := hc5 (n, c)
    rw [hzero] at this
    have hposun : 0 < ((separate_by_uniqueness filenames checksums).1.zip
        (separate_by_uniqueness filenames checksums).2.1).count (n, c) := by omega
    exact List.count_pos_iff_mem.mp hposun
  · intro n c hcount
    have hun0 : (separate_by_uniqueness filenames checksums).1.count n = 0 := by
      rw [hc3 n, if_neg (by omega)]
    have hnotmem : n ∉ (separate_by_uniqueness filenames checksums).1 :=
      List.count_eq_zero.mp hun0
    refine ⟨hnotmem, ?_⟩
    have hzle := count_zip_le_count_left
      (separate_by_uniqueness filenames checksums).1
      (separate_by_uniqueness filenames checksums).2.1 (n, c)
    have hzero : ((separate_by_uniqueness filenames checksums).1.zip
        (separate_by_uniqueness filenames checksums).2.1).count (n, c) = 0 := by
      have : (separate_by_uniqueness filenames checksums).1.count (n, c).1 = 0 := hun0
      omega
    have := hc5 (n, c)
    omega

/-- Witness for C5 at a concrete input: in
`separate_by_uniqueness ["a", "b", "a"] ["x", "y", "z"]` the filename `"b"`
occurs once and ends in the unique partition paired with `"y"`. -/
theorem separate_by_uniqueness_partition_witness :
    ("b", "y") ∈ (separate_by_uniqueness ["a", "b", "a"] ["x", "y", "z"]).1.zip
      (separate_by_uniqueness ["a", "b", "a"] ["x", "y", "z"]).2.1 :=
  (separate_by_uniqueness_partition ["a", "b", "a"] ["x", "y", "z"]).2.2.2.2.2.1
    "b" "y" (by decide) (by decide)

/-! ## C9: totality of the per-format validate operations -/

/-- C9 counterexample: the claim says every format's `validate_md5line` is
total and never raises, including on empty strings and strings lacking the
format's separator.  In fact `MD5Line.validate_md5line("")` evaluates
`"".split()[0]` and raises IndexError, and `CustomMD5Line.validate_md5line`
on a line without `" -> "` evaluates `rsplit(" -> ", 1)[1]` and raises
IndexError (both modelled by `none`). -/
theorem validate_md5line_raises_counterexample :
    MD5Line.validate_md5line "" = none ∧
    CustomMD5Line.validate_md5line "abc" = none := by
  constructor <;> rfl

/-- C9 as amended: `TeracopyMD5Line.validate_md5line` is total;
`MD5Line.validate_md5line` returns a boolean whenever the line has at least
one non-whitespace character (otherwise `split()[0]` raises IndexError), and
`CustomMD5Line.validate_md5line` returns a boolean whenever the cleaned line
contains the `" -> "` separator (otherwise `rsplit(" -> ", 1)[1]` raises
IndexError). -/
theorem validate_md5line_totality :
    (∀ s : String, (TeracopyMD5Line.validate_md5line s).isSome) ∧
    (∀ s : String, (∃ c ∈ s.data, ¬ isPySpace c) →
      (MD5Line.validate_md5line s).isSome) ∧
    (∀ s : String,
      (findSubLast [' ', '-', '>', ' '] (MD5Line.clean_md5line s.data)).isSome →
      (CustomMD5Line.validate_md5line s).isSome) := by
  refine ⟨fun s => rfl, ?_, ?_⟩
  · intro s hs
    rw [MD5Line.validate_md5line]
    rw [firstWsToken]
    have hne : s.data.dropWhile isPySpace ≠ [] := by
      intro hnil
      rw [List.dropWhile_eq_nil_iff] at hnil
      obtain ⟨c, hc, hnc⟩ := hs
      exact hnc (hnil c hc)
    cases hd : s.data.dropWhile isPySpace with
    | nil => exact absurd hd hne
    | cons a t => simp [hd]
  · intro s hs
    rw [CustomMD5Line.validate_md5line, rsplitOnceSub]
    cases hd : findSubLast [' ', '-', '>', ' '] (MD5Line.clean_md5line s.data) with
    | none => rw [hd] at hs; simp at hs
    | some i => simp

/-- Witness for C9 (amended) at concrete inputs: Teracopy validate on the
empty string, Plain validate on `"ab"`, Custom validate on `"a -> b"` all
return a boolean. -/
theorem validate_md5line_totality_witness :
    (TeracopyMD5Line.validate_md5line "").isSome ∧
    (MD5Line.validate_md5line "ab").isSome ∧
    (CustomMD5Line.validate_md5line "a -> b").isSome :=
  ⟨validate_md5line_totality.1 "",
   validate_md5line_totality.2.1 "ab" (by decide),
   validate_md5line_totality.2.2 "a -> b" (by decide)⟩

/-! ## C10: make_relative_path on a non-occurring reroot directory -/

/-- C10 counterexample: the claim says that when the (non-`None`) `root_dir`
does not occur as a substring of the normalized path, `make_relative_path`
returns the path unchanged apart from backslash/NFC normalization.  Two
violations: the normalized path `"./"` is rewritten to `"."` by the final
`if path == "./"` branch even though `"x"` occurs nowhere in it; and a
`root_dir` of `"b\\"` (not a substring of `"a/b/c"` as written) is
normalized to `"b/"` first, so the path is re-rooted to `"./c"` rather than
returned unchanged. -/
theorem make_relative_path_counterexample :
    (make_relative_path id "./" (some "x") = some "." ∧
      make_relative_path id "./" (some "x") ≠ some "./") ∧
    (make_relative_path id "a/b/c" (some "b\\") = some "./c" ∧
      make_relative_path id "a/b/c" (some "b\\") ≠ some "a/b/c") := by
  refine ⟨⟨rfl, ?_⟩, rfl, ?_⟩ <;> decide

/-- C10 as amended: when the normalized (slash/NFC) `root_dir` does not occur
as a substring of the normalized path, `make_relative_path` does not raise
and returns the normalized path, except that a normalized path equal to
`"./"` is returned as `"."`. -/
theorem make_relative_path_no_reroot (nfc : String → String) (path root_dir : String)
    (h : ¬ containsSub (nfc ⟨slashify root_dir.data⟩).data
      (nfc ⟨slashify path.data⟩).data) :
    make_relative_path nfc path (some root_dir) =
      some (if (nfc ⟨slashify path.data⟩).data = ['.', '/'] then "."
            else nfc ⟨slashify path.data⟩) := by
  rw [make_relative_path]
  simp only [Bool.not_eq_true] at h
  rw [if_neg (by simp [h])]
  show (if (nfc ⟨slashify path.data⟩).data = ['.', '/'] then some "."
        else some (⟨(nfc ⟨slashify path.data⟩).data⟩ : String)) = _
  by_cases hq : (nfc ⟨slashify path.data⟩).data = ['.', '/']
  · rw [if_pos hq, if_pos hq]
  · rw [if_neg hq, if_neg hq]

/-- Witness for C10 (amended): with trivial normalization, path `"a/b"` and
reroot directory `"zzz"` (which does not occur in it), the path is returned
unchanged. -/
theorem make_relative_path_no_reroot_witness :
    make_relative_path id "a/b" (some "zzz") =
      some (if (id (⟨slashify "a/b".data⟩ : String)).data = ['.', '/'] then "."
            else id (⟨slashify "a/b".data⟩ : String)) :=
  make_relative_path_no_reroot id "a/b" "zzz" (by decide)

/-! ## C8: serialize/parse round-trip for the Plain, Custom and Teracopy formats -/

theorem data_append (a b : String) : (a ++ b).data = a.data ++ b.data := rfl

theorem take_len_append {α : Type} (a b : List α) : (a ++ b).take a.length = a := by
  induction a with
  | nil => simp
  | cons c t ih => simpa using ih

theorem drop_len_append {α : Type} (a b : List α) : (a ++ b).drop a.length = b := by
  induction a with
  | nil => simp
  | cons c t ih => simpa using ih

theorem startsWithList_append_self (s t : List Char) :
    startsWithList s (s ++ t) = true := by
  induction s with
  | nil => rfl
  | cons c r ih => simpa [startsWithList] using ih

theorem findSub_first_at (sep a b : List Char) (s0 : Char) (st : List Char)
    (hsep : sep = s0 :: st) (ha : ∀ c ∈ a, c ≠ s0) :
    findSub sep (a ++ (sep ++ b)) = some a.length := by
  induction a with
  | nil =>
    simp only [List.nil_append, List.length_nil]
    cases hd : sep ++ b with
    | nil =>
      exfalso
      have : sep ≠ [] := by simp [hsep]
      exact this (List.append_eq_nil.mp hd).1
    | cons x xs =>
      have hsw : startsWithList sep (x :: xs) = true := by
        rw [← hd]; exact startsWithList_append_self sep b
      show (if startsWithList sep (x :: xs) = true then some 0
            else (findSub sep xs).map (· + 1)) = some 0
      rw [hsw]
      simp
  | cons c t ih =>
    have hc : c ≠ s0 := ha c (List.mem_cons_self _ _)
    have hstart : startsWithList sep (c :: (t ++ (sep ++ b))) = false := by
      rw [hsep, startsWithList]
      simp [Ne.symm hc]
    rw [List.cons_append]
    show (if startsWithList sep (c :: (t ++ (sep ++ b))) = true then some 0
          else (findSub sep (t ++ (sep ++ b))).map (· + 1)) = some (c :: t).length
    rw [hstart, ih (fun x hx => ha x (List.mem_cons_of_mem _ hx))]
    simp

theorem findSubLast_append_right (sep a l : List Char) (j : Nat)
    (h : findSubLast sep l = some j) :
    findSubLast sep (a ++ l) = some (a.length + j) := by
  induction a with
  | nil => simpa using h
  | cons c t ih =>
    rw [List.cons_append, findSubLast, ih]
    simp
    omega

theorem findSubLast_none_of_no_head (s0 : Char) (st b : List Char)
    (hb : ∀ c ∈ b, c ≠ s0) :
    findSubLast (s0 :: st) b = none := by
  induction b with
  | nil => rfl
  | cons c t ih =>
    rw [findSubLast, ih (fun x hx => hb x (List.mem_cons_of_mem _ hx))]
    have hc : c ≠ s0 := hb c (List.mem_cons_self _ _)
    rw [startsWithList]
    simp [Ne.symm hc]

theorem slashify_fixed (l : List Char) (h : '\\' ∉ l) : slashify l = l := by
  induction l with
  | nil => rfl
  | cons c t ih =>
    have hc : c ≠ '\\' := fun he => h (he ▸ List.mem_cons_self _ _)
    simp only [slashify, List.map_cons, if_neg hc]
    have := ih (fun hm => h (List.mem_cons_of_mem _ hm))
    simpa [slashify] using this

theorem removeNewlines_fixed (l : List Char) (h : '\n' ∉ l) : removeNewlines l = l := by
  rw [removeNewlines, List.filter_eq_self]
  intro c hc
  simp only [decide_eq_true_eq]
  exact fun he => h (he ▸ hc)

theorem clean_md5line_fixed (l : List Char) (hn : '\n' ∉ l) (hb : '\\' ∉ l) :
    MD5Line.clean_md5line l = l := by
  rw [MD5Line.clean_md5line, removeNewlines_fixed l hn, slashify_fixed l hb]

theorem takeWhile_nonspace_at (b : List Char) :
    ∀ (t : List Char), (∀ c ∈ t, isPySpace c = false) →
      (t ++ ' ' :: b).takeWhile (fun c => ¬ isPySpace c) = t := by
  intro t
  induction t with
  | nil =>
    intro _
    rw [List.nil_append, List.takeWhile_cons_of_neg]
    simp [isPySpace]
  | cons c r ih =>
    intro hs
    rw [List.cons_append,
      List.takeWhile_cons_of_pos (by simp [hs c (List.mem_cons_self _ _)]),
      ih (fun x hx => hs x (List.mem_cons_of_mem _ hx))]

theorem firstWsToken_at (a b : List Char) (ha : a ≠ [])
    (has : ∀ c ∈ a, isPySpace c = false) :
    firstWsToken (a ++ ' ' :: b) = some a := by
  have hdrop : (a ++ ' ' :: b).dropWhile isPySpace = a ++ ' ' :: b := by
    cases a with
    | nil => exact absurd rfl ha
    | cons c t =>
      rw [List.cons_append, List.dropWhile_cons_of_neg]
      simp [has c (List.mem_cons_self _ _)]
  rw [firstWsToken]
  simp only [hdrop]
  cases hcase : a ++ ' ' :: b with
  | nil => exact absurd (List.append_eq_nil.mp hcase).2 (by simp)
  | cons x xs =>
    simp only []
    rw [← hcase, takeWhile_nonspace_at b a has]

theorem matchesMd5Regex_valid (cs : String) (h : ValidChecksum cs) :
    matchesMd5Regex cs.data = true := by
  obtain ⟨hlen, hhex⟩ := h
  rw [matchesMd5Regex]
  have htake : cs.data.take 32 = cs.data := by
    rw [← hlen, List.take_length]
  have hdrop : cs.data.drop 32 = [] := by
    rw [← hlen, List.drop_length]
  rw [htake, hdrop, hlen]
  have hall : cs.data.all isHexChar = true := List.all_eq_true.mpr hhex
  simp [hall]

theorem hex_char_facts : ∀ c ∈ hexDigits,
    isPySpace c = false ∧ c ≠ '\n' ∧ c ≠ '\\' ∧ c ≠ ' ' ∧ c ≠ '-' ∧ c ≠ '*' := by
  decide

theorem valid_checksum_chars (cs : String) (h : ValidChecksum cs) :
    ∀ c ∈ cs.data,
      isPySpace c = false ∧ c ≠ '\n' ∧ c ≠ '\\' ∧ c ≠ ' ' ∧ c ≠ '-' ∧ c ≠ '*' := by
  intro c hc
  have := h.2 c hc
  rw [isHexChar, decide_eq_true_eq] at this
  exact hex_char_facts c this

theorem takeUntilSub_at (sep l : List Char) (i : Nat) (h : findSub sep l = some i) :
    takeUntilSub sep l = l.take i := by
  rw [takeUntilSub, h]

theorem splitOnceSub_at (sep l : List Char) (i : Nat) (h : findSub sep l = some i) :
    splitOnceSub sep l = some (l.take i, l.drop (i + sep.length)) := by
  rw [splitOnceSub, h]

theorem rsplitOnceSub_at (sep l : List Char) (i : Nat) (h : findSubLast sep l = some i) :
    rsplitOnceSub sep l = some (l.take i, l.drop (i + sep.length)) := by
  rw [rsplitOnceSub, h]

theorem make_relative_path_none_arg (nfc : String → String) (q : String)
    (hbs : '\\' ∉ q.data) (hfix : nfc q = q) :
    make_relative_path nfc q none = some q := by
  rw [make_relative_path]
  show some (⟨(nfc ⟨slashify q.data⟩).data⟩ : String) = some q
  rw [slashify_fixed q.data hbs]
  show some (nfc q) = some q
  rw [hfix]

theorem cs_data_ne_nil (cs : String) (hcs : ValidChecksum cs) : cs.data ≠ [] := by
  intro h
  have := hcs.1
  rw [h] at this
  simp at this

/-- Round-trip for the Plain (md5sum) format. -/
theorem roundtrip_plain (nfc : String → String) (cs p : String)
    (hcs : ValidChecksum cs) (hbs : '\\' ∉ p.data) (hnl : '\n' ∉ p.data)
    (hfix : nfc p = p) (rest : List Char) (hp : p.data = '.' :: '/' :: rest) :
    MD5Line.extract_checksum (MD5Line.get_md5line_string p cs) = some cs ∧
    MD5Line.extract_filepath nfc (MD5Line.get_md5line_string p cs) none = some p := by
  have hcsc := valid_checksum_chars cs hcs
  have hline : (MD5Line.get_md5line_string p cs).data = cs.data ++ (' ' :: p.data) := by
    show (cs ++ " " ++ p).data = _
    rw [data_append, data_append, List.append_assoc]
    rfl
  have hval : MD5Line.validate_md5line (MD5Line.get_md5line_string p cs) = some true := by
    rw [MD5Line.validate_md5line, hline,
      firstWsToken_at cs.data p.data (cs_data_ne_nil cs hcs) (fun c hc => (hcsc c hc).1)]
    simp [matchesMd5Regex_valid cs hcs]
  have hclean : MD5Line.clean_md5line (MD5Line.get_md5line_string p cs).data
      = (MD5Line.get_md5line_string p cs).data := by
    apply clean_md5line_fixed
    · rw [hline]
      intro hmem
      rcases List.mem_append.mp hmem with h | h
      · exact (hcsc _ h).2.1 rfl
      · rcases List.mem_cons.mp h with h2 | h2
        · exact absurd h2 (by decide)
        · exact hnl h2
    · rw [hline]
      intro hmem
      rcases List.mem_append.mp hmem with h | h
      · exact (hcsc _ h).2.2.1 rfl
      · rcases List.mem_cons.mp h with h2 | h2
        · exact absurd h2 (by decide)
        · exact hbs h2
  have hsub : findSub [' ', '.', '/'] (MD5Line.get_md5line_string p cs).data
      = some cs.data.length := by
    rw [hline, hp]
    show findSub [' ', '.', '/'] (cs.data ++ ([' ', '.', '/'] ++ rest)) = _
    exact findSub_first_at [' ', '.', '/'] cs.data rest ' ' ['.', '/'] rfl
      (fun c hc => (hcsc c hc).2.2.2.1)
  have htake : (MD5Line.get_md5line_string p cs).data.take cs.data.length = cs.data := by
    rw [hline]
    exact take_len_append cs.data _
  have hdropped : (MD5Line.get_md5line_string p cs).data.drop
      (cs.data.length + [' ', '.', '/'].length) = rest := by
    rw [hline, hp]
    show (cs.data ++ ([' ', '.', '/'] ++ rest)).drop (cs.data.length + 3) = rest
    rw [← List.append_assoc]
    have hlen : cs.data.length + 3 = (cs.data ++ [' ', '.', '/']).length := by
      simp
    rw [hlen]
    exact drop_len_append _ rest
  constructor
  · rw [MD5Line.extract_checksum, hval]
    show some (⟨takeUntilSub [' ', '.', '/']
      (MD5Line.clean_md5line (MD5Line.get_md5line_string p cs).data)⟩ : String) = some cs
    rw [hclean, takeUntilSub_at _ _ _ hsub, htake]
  · rw [MD5Line.extract_filepath, hval]
    show (match splitOnceSub [' ', '.', '/']
        (MD5Line.clean_md5line (MD5Line.get_md5line_string p cs).data) with
      | none => none
      | some (_, post) => make_relative_path nfc ⟨'.' :: '/' :: post⟩ none) = some p
    rw [hclean, splitOnceSub_at _ _ _ hsub]
    show make_relative_path nfc ⟨'.' :: '/' ::
      (MD5Line.get_md5line_string p cs).data.drop (cs.data.length + 3)⟩ none = some p
    rw [show cs.data.length + 3 = cs.data.length + [' ', '.', '/'].length from rfl,
      hdropped, ← hp]
    exact make_relative_path_none_arg nfc p hbs hfix

/-- Round-trip for the Custom format. -/
theorem roundtrip_custom (nfc : String → String) (cs p : String)
    (hcs : ValidChecksum cs) (hbs : '\\' ∉ p.data) (hnl : '\n' ∉ p.data)
    (hfix : nfc p = p) :
    CustomMD5Line.extract_checksum (CustomMD5Line.get_custom_md5line_string p cs)
      = some cs ∧
    CustomMD5Line.extract_filepath nfc (CustomMD5Line.get_custom_md5line_string p cs)
      none = some p := by
  have hcsc := valid_checksum_chars cs hcs
  have hline : (CustomMD5Line.get_custom_md5line_string p cs).data
      = p.data ++ ([' ', '-', '>', ' '] ++ cs.data) := by
    show (p ++ " -> " ++ cs).data = _
    rw [data_append, data_append, List.append_assoc]
  have hb1 : startsWithList ['-', '>', ' '] cs.data = false := by
    cases hd : cs.data with
    | nil => rfl
    | cons c0 t0 =>
      rw [startsWithList]
      have hc0 : c0 ≠ '-' := (hcsc c0 (hd ▸ List.mem_cons_self _ _)).2.2.2.2.1
      simp [Ne.symm hc0]
  have h4 : findSubLast [' ', '-', '>', ' '] cs.data = none :=
    findSubLast_none_of_no_head ' ' ['-', '>', ' '] cs.data
      (fun c hc => (hcsc c hc).2.2.2.1)
  have h3 : findSubLast [' ', '-', '>', ' '] (' ' :: cs.data) = none := by
    rw [findSubLast, h4]
    have hsw : startsWithList [' ', '-', '>', ' '] (' ' :: cs.data) = false := by
      rw [startsWithList]
      simp [hb1]
    rw [hsw]
    rfl
  have h2 : findSubLast [' ', '-', '>', ' '] ('>' :: ' ' :: cs.data) = none := by
    rw [findSubLast, h3]
    have hsw : startsWithList [' ', '-', '>', ' '] ('>' :: ' ' :: cs.data) = false := by
      rw [startsWithList]
      simp
    rw [hsw]
    rfl
  have h1 : findSubLast [' ', '-', '>', ' '] ('-' :: '>' :: ' ' :: cs.data) = none := by
    rw [findSubLast, h2]
    have hsw : startsWithList [' ', '-', '>', ' ']
        ('-' :: '>' :: ' ' :: cs.data) = false := by
      rw [startsWithList]
      simp
    rw [hsw]
    rfl
  have h0 : findSubLast [' ', '-', '>', ' ']
      ([' ', '-', '>', ' '] ++ cs.data) = some 0 := by
    show findSubLast [' ', '-', '>', ' '] (' ' :: '-' :: '>' :: ' ' :: cs.data) = some 0
    rw [findSubLast, h1]
    have hsw : startsWithList [' ', '-', '>', ' ']
        (' ' :: '-' :: '>' :: ' ' :: cs.data) = true :=
      startsWithList_append_self [' ', '-', '>', ' '] cs.data
    rw [hsw]
    rfl
  have hlast : findSubLast [' ', '-', '>', ' ']
      (CustomMD5Line.get_custom_md5line_string p cs).data = some p.data.length := by
    rw [hline]
    have := findSubLast_append_right [' ', '-', '>', ' '] p.data
      ([' ', '-', '>', ' '] ++ cs.data) 0 h0
    simpa using this
  have hclean : MD5Line.clean_md5line (CustomMD5Line.get_custom_md5line_string p cs).data
      = (CustomMD5Line.get_custom_md5line_string p cs).data := by
    apply clean_md5line_fixed
    · rw [hline]
      intro hmem
      rcases List.mem_append.mp hmem with h | h
      · exact hnl h
      · rcases List.mem_append.mp h with h2 | h2
        · exact absurd h2 (by decide)
        · exact (hcsc _ h2).2.1 rfl
    · rw [hline]
      intro hmem
      rcases List.mem_append.mp hmem with h | h
      · exact hbs h
      · rcases List.mem_append.mp h with h2 | h2
        · exact absurd h2 (by decide)
        · exact (hcsc _ h2).2.2.1 rfl
  have htake : (CustomMD5Line.get_custom_md5line_string p cs).data.take p.data.length
      = p.data := by
    rw [hline]
    exact take_len_append p.data _
  have hdropped : (CustomMD5Line.get_custom_md5line_string p cs).data.drop
      (p.data.length + [' ', '-', '>', ' '].length) = cs.data := by
    rw [hline, ← List.append_assoc]
    have hlen : p.data.length + [' ', '-', '>', ' '].length
        = (p.data ++ [' ', '-', '>', ' ']).length := by
      simp
    rw [hlen]
    exact drop_len_append _ cs.data
  have hrs : rsplitOnceSub [' ', '-', '>', ' ']
      (MD5Line.clean_md5line (CustomMD5Line.get_custom_md5line_string p cs).data)
      = some (p.data, cs.data) := by
    rw [hclean, rsplitOnceSub_at _ _ _ hlast, htake, hdropped]
  have hval : CustomMD5Line.validate_md5line (CustomMD5Line.get_custom_md5line_string p cs)
      = some true := by
    rw [CustomMD5Line.validate_md5line, hrs]
    simp [matchesMd5Regex_valid cs hcs]
  constructor
  · rw [CustomMD5Line.extract_checksum, hval]
    show (rsplitOnceSub [' ', '-', '>', ' ']
      (MD5Line.clean_md5line (CustomMD5Line.get_custom_md5line_string p cs).data)).map
        (fun q => (⟨q.2⟩ : String)) = some cs
    rw [hrs]
    rfl
  · rw [CustomMD5Line.extract_filepath, hval]
    show (match rsplitOnceSub [' ', '-', '>', ' ']
        (MD5Line.clean_md5line (CustomMD5Line.get_custom_md5line_string p cs).data) with
      | none => none
      | some (pre, _) => make_relative_path nfc ⟨pre⟩ none) = some p
    rw [hrs]
    show make_relative_path nfc ⟨p.data⟩ none = some p
    exact make_relative_path_none_arg nfc p hbs hfix

/-- Round-trip for the Teracopy format. -/
theorem roundtrip_teracopy (nfc : String → String) (cs p : String)
    (hcs : ValidChecksum cs) (hbs : '\\' ∉ p.data) (hnl : '\n' ∉ p.data)
    (hfix : nfc p = p) :
    TeracopyMD5Line.extract_checksum (TeracopyMD5Line.get_teracopy_md5line_string p cs)
      = some cs ∧
    TeracopyMD5Line.extract_filepath nfc
      (TeracopyMD5Line.get_teracopy_md5line_string p cs) none = some p := by
  have hcsc := valid_checksum_chars cs hcs
  have hline : (TeracopyMD5Line.get_teracopy_md5line_string p cs).data
      = cs.data ++ ([' ', '*'] ++ p.data) := by
    show (cs ++ " *" ++ p).data = _
    rw [data_append, data_append, List.append_assoc]
  have hsub : findSub [' ', '*'] (TeracopyMD5Line.get_teracopy_md5line_string p cs).data
      = some cs.data.length := by
    rw [hline]
    exact findSub_first_at [' ', '*'] cs.data p.data ' ' ['*'] rfl
      (fun c hc => (hcsc c hc).2.2.2.1)
  have htake : (TeracopyMD5Line.get_teracopy_md5line_string p cs).data.take
      cs.data.length = cs.data := by
    rw [hline]
    exact take_len_append cs.data _
  have hval : TeracopyMD5Line.validate_md5line
      (TeracopyMD5Line.get_teracopy_md5line_string p cs) = some true := by
    rw [TeracopyMD5Line.validate_md5line, takeUntilSub_at _ _ _ hsub, htake]
    rw [matchesMd5Regex_valid cs hcs]
  have hclean : MD5Line.clean_md5line
      (TeracopyMD5Line.get_teracopy_md5line_string p cs).data
      = (TeracopyMD5Line.get_teracopy_md5line_string p cs).data := by
    apply clean_md5line_fixed
    · rw [hline]
      intro hmem
      rcases List.mem_append.mp hmem with h | h
      · exact (hcsc _ h).2.1 rfl
      · rcases List.mem_append.mp h with h2 | h2
        · exact absurd h2 (by decide)
        · exact hnl h2
    · rw [hline]
      intro hmem
      rcases List.mem_append.mp hmem with h | h
      · exact (hcsc _ h).2.2.1 rfl
      · rcases List.mem_append.mp h with h2 | h2
        · exact absurd h2 (by decide)
        · exact hbs h2
  have hdropped : (TeracopyMD5Line.get_teracopy_md5line_string p cs).data.drop
      (cs.data.length + [' ', '*'].length) = p.data := by
    rw [hline, ← List.append_assoc]
    have hlen : cs.data.length + [' ', '*'].length = (cs.data ++ [' ', '*']).length := by
      simp
    rw [hlen]
    exact drop_len_append _ p.data
  constructor
  · rw [TeracopyMD5Line.extract_checksum, hval]
    show some (⟨takeUntilSub [' ', '*']
      (MD5Line.clean_md5line
        (TeracopyMD5Line.get_teracopy_md5line_string p cs).data)⟩ : String) = some cs
    rw [hclean, takeUntilSub_at _ _ _ hsub, htake]
  · rw [TeracopyMD5Line.extract_filepath, hval]
    show (match splitOnceSub [' ', '*']
        (MD5Line.clean_md5line
          (TeracopyMD5Line.get_teracopy_md5line_string p cs).data) with
      | none => none
      | some (_, post) => make_relative_path nfc ⟨post⟩ none) = some p
    rw [hclean, splitOnceSub_at _ _ _ hsub]
    show make_relative_path nfc
      ⟨(TeracopyMD5Line.get_teracopy_md5line_string p cs).data.drop
        (cs.data.length + 2)⟩ none = some p
    rw [show cs.data.length + 2 = cs.data.length + [' ', '*'].length from rfl, hdropped]
    exact make_relative_path_none_arg nfc p hbs hfix

/-- C8: for each of the Plain, Custom and Teracopy formats, any valid
32-hex checksum, and any well-formed path (no backslash or newline,
NFC-fixed, and for Plain carrying the leading `./` marker), extracting the
filepath and checksum from the serialized line returns exactly the original
(path, checksum) pair. -/
theorem md5line_roundtrip (nfc : String → String) (cs p : String)
    (hcs : ValidChecksum cs) (hbs : '\\' ∉ p.data) (hnl : '\n' ∉ p.data)
    (hfix : nfc p = p) :
    (∀ rest : List Char, p.data = '.' :: '/' :: rest →
      MD5Line.extract_checksum (MD5Line.get_md5line_string p cs) = some cs ∧
      MD5Line.extract_filepath nfc (MD5Line.get_md5line_string p cs) none = some p) ∧
    (CustomMD5Line.extract_checksum (CustomMD5Line.get_custom_md5line_string p cs)
        = some cs ∧
      CustomMD5Line.extract_filepath nfc (CustomMD5Line.get_custom_md5line_string p cs)
        none = some p) ∧
    (TeracopyMD5Line.extract_checksum (TeracopyMD5Line.get_teracopy_md5line_string p cs)
        = some cs ∧
      TeracopyMD5Line.extract_filepath nfc
        (TeracopyMD5Line.get_teracopy_md5line_string p cs) none = some p) :=
  ⟨fun rest hp => roundtrip_plain nfc cs p hcs hbs hnl hfix rest hp,
   roundtrip_custom nfc cs p hcs hbs hnl hfix,
   roundtrip_teracopy nfc cs p hcs hbs hnl hfix⟩

/-- Witness for C8 at a concrete input: path `"./a b/c.txt"` and checksum
`"0123456789abcdef0123456789ABCDEF"` round-trip through all three formats. -/
theorem md5line_roundtrip_witness :
    (MD5Line.extract_checksum
        (MD5Line.get_md5line_string "./a b/c.txt" "0123456789abcdef0123456789ABCDEF")
      = some "0123456789abcdef0123456789ABCDEF" ∧
     MD5Line.extract_filepath id
        (MD5Line.get_md5line_string "./a b/c.txt" "0123456789abcdef0123456789ABCDEF")
        none = some "./a b/c.txt") ∧
    (CustomMD5Line.extract_checksum
        (CustomMD5Line.get_custom_md5line_string "./a b/c.txt"
          "0123456789abcdef0123456789ABCDEF")
      = some "0123456789abcdef0123456789ABCDEF" ∧
     CustomMD5Line.extract_filepath id
        (CustomMD5Line.get_custom_md5line_string "./a b/c.txt"
          "0123456789abcdef0123456789ABCDEF") none = some "./a b/c.txt") ∧
    (TeracopyMD5Line.extract_checksum
        (TeracopyMD5Line.get_teracopy_md5line_string "./a b/c.txt"
          "0123456789abcdef0123456789ABCDEF")
      = some "0123456789abcdef0123456789ABCDEF" ∧
     TeracopyMD5Line.extract_filepath id
        (TeracopyMD5Line.get_teracopy_md5line_string "./a b/c.txt"
          "0123456789abcdef0123456789ABCDEF") none = some "./a b/c.txt") := by
  have h := md5line_roundtrip id "0123456789abcdef0123456789ABCDEF" "./a b/c.txt"
    (by constructor
        · decide
        · decide)
    (by decide) (by decide) rfl
  exact ⟨h.1 "a b/c.txt".data (by decide), h.2.1, h.2.2⟩

/-! ## C2: verification classifies every non-manifest file -/

theorem get?_eq_some_getD {α : Type} (l : List α) (i : Nat) (d : α)
    (h : i < l.length) : l.get? i = some (l.getD i d) := by
  induction l generalizing i with
  | nil => simp at h
  | cons a t ih =>
    cases i with
    | zero => rfl
    | succ j => simpa [List.getD] using ih j (by simpa using h)

/-- C2: every non-manifest file visited by `verify_checksums` is classified
into exactly one of {passed, failed, new}: new iff its root-relative path is
absent from the source manifest; otherwise it is hashed, passed iff the fresh
hash equals the stored checksum case-insensitively, failed otherwise. -/
theorem verify_file_classification (nfc hash : String → String)
    (checksummed_filepaths saved_checksums : List String)
    (root root_filtered file0 : String)
    (hlen : checksummed_filepaths.length = saved_checksums.length)
    (hman : is_checksum_filename (nfc file0) none = false) :
    ∃ c, verify_file nfc hash checksummed_filepaths saved_checksums
        root root_filtered file0 = some c ∧
      c ≠ FileClass.skipped ∧
      (c = FileClass.newFile ↔
        (root_filtered ++ "/" ++ nfc file0) ∉ checksummed_filepaths) ∧
      (∀ i, index_if_possible checksummed_filepaths
          (root_filtered ++ "/" ++ nfc file0) = some i →
        (c = FileClass.passed ↔
          pyUpper (hash (root ++ "/" ++ nfc file0)).data =
            pyUpper (saved_checksums.getD i "").data) ∧
        (c = FileClass.failed ↔
          pyUpper (hash (root ++ "/" ++ nfc file0)).data ≠
            pyUpper (saved_checksums.getD i "").data)) := by
  have hunfold : verify_file nfc hash checksummed_filepaths saved_checksums
      root root_filtered file0 =
      (if is_checksum_filename (nfc file0) none = true then some FileClass.skipped
       else
        match index_if_possible checksummed_filepaths
            (root_filtered ++ "/" ++ nfc file0) with
        | none => some FileClass.newFile
        | some k =>
          match saved_checksums.get? k with
          | none => none
          | some saved =>
            if pyUpper (hash (root ++ "/" ++ nfc file0)).data ≠ pyUpper saved.data
            then some FileClass.failed else some FileClass.passed) := rfl
  cases hI : index_if_possible checksummed_filepaths
      (root_filtered ++ "/" ++ nfc file0) with
  | none =>
    refine ⟨FileClass.newFile, ?_, by simp, ?_, ?_⟩
    · rw [hunfold, if_neg (by simp [hman]), hI]
    · simp [(index_if_possible_eq_none_iff _ _).mp hI]
    · intro i hi
      cases hi
  | some i =>
    have hidec := iip_some_decomp _ _ _ hI
    have hmem : (root_filtered ++ "/" ++ nfc file0) ∈ checksummed_filepaths :=
      iip_some_mem _ _ _ hI
    have hget : saved_checksums.get? i = some (saved_checksums.getD i "") :=
      get?_eq_some_getD _ _ _ (hlen ▸ hidec.1)
    by_cases hEq : pyUpper (hash (root ++ "/" ++ nfc file0)).data =
        pyUpper (saved_checksums.getD i "").data
    · refine ⟨FileClass.passed, ?_, by simp, by simp [hmem], ?_⟩
      · rw [hunfold, if_neg (by simp [hman]), hI]
        show (match saved_checksums.get? i with
          | none => none
          | some saved =>
            if pyUpper (hash (root ++ "/" ++ nfc file0)).data ≠ pyUpper saved.data
            then some FileClass.failed else some FileClass.passed)
          = some FileClass.passed
        rw [hget]
        show (if pyUpper (hash (root ++ "/" ++ nfc file0)).data
              ≠ pyUpper (saved_checksums.getD i "").data
              then some FileClass.failed else some FileClass.passed)
          = some FileClass.passed
        rw [if_neg (fun hne => hne hEq)]
      · intro j hj
        have hji : j = i := (Option.some.inj hj).symm
        subst hji
        exact ⟨⟨fun _ => hEq, fun _ => rfl⟩,
               ⟨fun h => FileClass.noConfusion h, fun hne => absurd hEq hne⟩⟩
    · refine ⟨FileClass.failed, ?_, by simp, by simp [hmem], ?_⟩
      · rw [hunfold, if_neg (by simp [hman]), hI]
        show (match saved_checksums.get? i with
          | none => none
          | some saved =>
            if pyUpper (hash (root ++ "/" ++ nfc file0)).data ≠ pyUpper saved.data
            then some FileClass.failed else some FileClass.passed)
          = some FileClass.failed
        rw [hget]
        show (if pyUpper (hash (root ++ "/" ++ nfc file0)).data
              ≠ pyUpper (saved_checksums.getD i "").data
              then some FileClass.failed else some FileClass.passed)
          = some FileClass.failed
        rw [if_pos hEq]
      · intro j hj
        have hji : j = i := (Option.some.inj hj).symm
        subst hji
        exact ⟨⟨fun h => FileClass.noConfusion h, fun h => absurd h hEq⟩,
               ⟨fun _ => hEq, fun _ => rfl⟩⟩

/-- Witness for C2 at a concrete input: with one manifest entry `./d/x`
whose stored checksum `abc` matches the fresh hash `ABC` case-insensitively,
the file `x` is classified (and not skipped). -/
theorem verify_file_classification_witness :
    verify_file id (fun _ => "ABC") ["./d/x"] ["abc"] "r" "./d" "x" =
      some FileClass.passed := by
  obtain ⟨c, hc, -, -, hcls⟩ := verify_file_classification id (fun _ => "ABC")
    ["./d/x"] ["abc"] "r" "./d" "x" (by decide) (by decide)
  have hidx : index_if_possible ["./d/x"] ("./d" ++ "/" ++ id "x") = some 0 := by decide
  have := (hcls 0 hidx).1
  have hcp : c = FileClass.passed := this.mpr (by decide)
  rw [← hcp]
  exact hc

/-! ## C7: the unsorted duplicate partition during generation -/

/-- C7: during checksum generation, a file whose (NFC-normalized) name is
found only in the unsorted source's duplicate partition is freshly hashed; a
manifest line carrying the fresh hash is emitted iff the fresh hash together
with the filename occurs among the recorded duplicate candidates, and
otherwise the file is recorded as a failed-checksum diagnostic with no line
emitted. -/
theorem generate_file_duplicate_partition (nfc hash : String → String)
    (root root_filtered : String)
    (nested_filenames nested_checksums unsorted_filenames unsorted_checksums
      unsorted_dupe_filenames unsorted_dupe_checksums : List String)
    (existing_filenames : Option (List String)) (files_to_ignore : List String)
    (file0 : String)
    (hig : nfc file0 ∉ files_to_ignore)
    (hman : is_checksum_filename (nfc file0) none = false)
    (hex : ∀ ex, existing_filenames = some ex → nfc file0 ∉ ex)
    (hnest : nfc file0 ∉ nested_filenames)
    (huns : nfc file0 ∉ unsorted_filenames)
    (hdupe : nfc file0 ∈ unsorted_dupe_filenames)
    (lp : String) (hcat : concat_filepaths root_filtered (nfc file0) = some lp) :
    ((nfc file0, hash (root ++ "/" ++ nfc file0)) ∈
        unsorted_dupe_filenames.zip unsorted_dupe_checksums →
      generate_file nfc hash root root_filtered nested_filenames nested_checksums
        unsorted_filenames unsorted_checksums unsorted_dupe_filenames
        unsorted_dupe_checksums existing_filenames files_to_ignore file0 =
      some (GenOutcome.emit (CustomMD5Line.get_custom_md5line_string lp
        (hash (root ++ "/" ++ nfc file0)) ++ "\n"))) ∧
    ((nfc file0, hash (root ++ "/" ++ nfc file0)) ∉
        unsorted_dupe_filenames.zip unsorted_dupe_checksums →
      generate_file nfc hash root root_filtered nested_filenames nested_checksums
        unsorted_filenames unsorted_checksums unsorted_dupe_filenames
        unsorted_dupe_checksums existing_filenames files_to_ignore file0 =
      some (GenOutcome.failedChecksum
        ("'" ++ nfc file0 ++ "' - (" ++ root_filtered ++ ")"))) := by
  have hnestI : index_if_possible nested_filenames (nfc file0) = none :=
    (index_if_possible_eq_none_iff _ _).mpr hnest
  have hunsI : index_if_possible unsorted_filenames (nfc file0) = none :=
    (index_if_possible_eq_none_iff _ _).mpr huns
  have hbridge : ∀ fresh : String,
      nfc file0 ∈ (((unsorted_dupe_filenames.zip unsorted_dupe_checksums).filter
        (fun q => q.2 = fresh)).map Prod.fst) ↔
      (nfc file0, fresh) ∈ unsorted_dupe_filenames.zip unsorted_dupe_checksums := by
    intro fresh
    simp only [List.mem_map, List.mem_filter, decide_eq_true_eq]
    constructor
    · rintro ⟨q, ⟨hq, hq2⟩, hq1⟩
      have hqe : q = (nfc file0, fresh) := Prod.ext hq1 hq2
      exact hqe ▸ hq
    · intro h
      exact ⟨(nfc file0, fresh), ⟨h, rfl⟩, rfl⟩
  have hexb : in_existing existing_filenames (nfc file0) = false := by
    cases hx : existing_filenames with
    | none => rfl
    | some ex =>
      rw [in_existing]
      simpa using hex ex hx
  have hunfold : generate_file nfc hash root root_filtered nested_filenames
      nested_checksums unsorted_filenames unsorted_checksums
      unsorted_dupe_filenames unsorted_dupe_checksums existing_filenames
      files_to_ignore file0 =
      (if (nfc file0 ∈ files_to_ignore ∨ is_checksum_filename (nfc file0) none = true)
       then some GenOutcome.skippedFile
       else if in_existing existing_filenames (nfc file0) = true
       then some GenOutcome.skippedFile
       else
        match index_if_possible nested_filenames (nfc file0) with
        | some i =>
          match nested_checksums.get? i with
          | none => none
          | some c => mk_custom_line root_filtered (nfc file0) c
        | none =>
          match index_if_possible unsorted_filenames (nfc file0) with
          | some i =>
            match unsorted_checksums.get? i with
            | none => none
            | some c => mk_custom_line root_filtered (nfc file0) c
          | none =>
            if nfc file0 ∈ unsorted_dupe_filenames then
              (if nfc file0 ∉ (((unsorted_dupe_filenames.zip unsorted_dupe_checksums).filter
                  (fun q => q.2 = hash (root ++ "/" ++ nfc file0))).map Prod.fst)
               then some (GenOutcome.failedChecksum
                 ("'" ++ nfc file0 ++ "' - (" ++ root_filtered ++ ")"))
               else mk_custom_line root_filtered (nfc file0)
                 (hash (root ++ "/" ++ nfc file0)))
            else mk_custom_line root_filtered (nfc file0)
              (hash (root ++ "/" ++ nfc file0))) := rfl
  constructor
  · intro hmem
    rw [hunfold, if_neg (by simp [hig, hman]), if_neg (by simp [hexb]), hnestI, hunsI,
      if_pos hdupe]
    rw [if_neg (fun hc => hc ((hbridge _).mpr hmem))]
    rw [mk_custom_line, hcat]
  · intro hmem
    rw [hunfold, if_neg (by simp [hig, hman]), if_neg (by simp [hexb]), hnestI, hunsI,
      if_pos hdupe]
    rw [if_pos (fun hc => hmem ((hbridge _).mp hc))]

/-! ## C3: rotation in get_checksum_save_location -/

theorem check_header_true (fs : Fs) (p : String) (nested : Bool) (content : String)
    (hget : fsGet fs p = some content)
    (hheader : firstLine content.data =
      (if nested then nested_checksum_header else main_checksum_header).data) :
    check_custom_md5file_header fs p nested = some true := by
  rw [check_custom_md5file_header, hget]
  simp [hheader]

/-- Shared rotation description for `get_checksum_save_location` with
`updating_only = false` on an existing, well-headed manifest. -/
theorem rotation_spec (fs : Fs) (folder : String)
    (nested : Bool) (content : String)
    (hclean : clean_filepath folder false = some folder)
    (hget : fsGet fs (canonical_path folder nested) = some content)
    (hheader : firstLine content.data =
      (if nested then nested_checksum_header else main_checksum_header).data) :
    ∃ (fs' : Fs) (k : Nat),
      get_checksum_save_location fs folder false nested
        = some (fs', canonical_path folder nested) ∧
      fsExists fs ⟨oldCand (splitext (canonical_path folder nested).data).1
        (splitext (canonical_path folder nested).data).2 k⟩ = false ∧
      (⟨oldCand (splitext (canonical_path folder nested).data).1
        (splitext (canonical_path folder nested).data).2 k⟩ : String)
        ≠ canonical_path folder nested ∧
      fsGet fs' (canonical_path folder nested) = none ∧
      fsGet fs' ⟨oldCand (splitext (canonical_path folder nested).data).1
        (splitext (canonical_path folder nested).data).2 k⟩ = some content ∧
      (∀ q : String, q ≠ canonical_path folder nested →
        q ≠ ⟨oldCand (splitext (canonical_path folder nested).data).1
          (splitext (canonical_path folder nested).data).2 k⟩ →
        fsGet fs' q = fsGet fs q) := by
  have hex : fsExists fs (canonical_path folder nested) = true := by
    rw [fsExists, hget]
    rfl
  have hcheck : check_custom_md5file_header fs (canonical_path folder nested) nested
      = some true := check_header_true fs _ nested content hget hheader
  obtain ⟨j0, hj0le, hj0free⟩ := exists_free_cand fs
    (splitext (canonical_path folder nested).data).1
    (splitext (canonical_path folder nested).data).2
  obtain ⟨k, hfind, hkfree⟩ := find_free_old_success fs
    (splitext (canonical_path folder nested).data).1
    (splitext (canonical_path folder nested).data).2 fs.length 0
    ⟨j0, by omega, by omega, hj0free⟩
  have hne : (⟨oldCand (splitext (canonical_path folder nested).data).1
      (splitext (canonical_path folder nested).data).2 k⟩ : String)
      ≠ canonical_path folder nested := by
    intro he
    rw [he, hex] at hkfree
    cases hkfree
  have heval : get_checksum_save_location fs folder false nested
      = some (fsRename fs (canonical_path folder nested)
          ⟨oldCand (splitext (canonical_path folder nested).data).1
            (splitext (canonical_path folder nested).data).2 k⟩,
        canonical_path folder nested) := by
    show (match clean_filepath folder false with
      | none => none
      | some f => get_checksum_save_location_clean fs f false nested) = _
    rw [hclean]
    show (if fsExists fs (canonical_path folder nested) = true then
        match check_custom_md5file_header fs (canonical_path folder nested) nested with
        | none => none
        | some false => none
        | some true =>
          if false = true then some (fs, canonical_path folder nested)
          else
            match find_free_old_name fs
                (splitext (canonical_path folder nested).data).1
                (splitext (canonical_path folder nested).data).2 fs.length 0 with
            | none => none
            | some old_name =>
              some (fsRename fs (canonical_path folder nested) ⟨old_name⟩,
                canonical_path folder nested)
      else some (fs, canonical_path folder nested)) = _
    rw [if_pos hex, hcheck]
    show (if false = true then some (fs, canonical_path folder nested)
      else
        match find_free_old_name fs
            (splitext (canonical_path folder nested).data).1
            (splitext (canonical_path folder nested).data).2 fs.length 0 with
        | none => none
        | some old_name =>
          some (fsRename fs (canonical_path folder nested) ⟨old_name⟩,
            canonical_path folder nested)) = _
    rw [if_neg (by simp), hfind]
  have hren : fsRename fs (canonical_path folder nested)
      ⟨oldCand (splitext (canonical_path folder nested).data).1
        (splitext (canonical_path folder nested).data).2 k⟩
      = fsSet (fsErase fs (canonical_path folder nested))
        ⟨oldCand (splitext (canonical_path folder nested).data).1
          (splitext (canonical_path folder nested).data).2 k⟩ content := by
    rw [fsRename, hget]
  refine ⟨_, k, heval, hkfree, hne, ?_, ?_, ?_⟩
  · rw [hren, fsGet_fsSet_ne _ _ _ _ (Ne.symm hne)]
    exact fsGet_fsErase_self fs _
  · rw [hren]
    exact fsGet_fsSet_self _ _ _
  · intro q hq1 hq2
    rw [hren, fsGet_fsSet_ne _ _ _ _ hq2, fsGet_fsErase_ne _ _ _ hq1]

/-- C3: when the canonical manifest exists with the correct header, resolving
the save location with `updating_only = false` renames the existing file to
an `_old`-suffixed sibling name that did not previously exist (incrementing
a counter until a free name is found) and returns the canonical path; the
canonical slot is freed, the prior manifest's content survives unchanged at
the fresh `_old` name, and no other file is overwritten or deleted. -/
theorem get_checksum_save_location_rotation (fs : Fs) (folder : String)
    (nested : Bool) (content : String)
    (hclean : clean_filepath folder false = some folder)
    (hget : fsGet fs (canonical_path folder nested) = some content)
    (hheader : firstLine content.data =
      (if nested then nested_checksum_header else main_checksum_header).data) :
    ∃ (fs' : Fs) (k : Nat),
      get_checksum_save_location fs folder false nested
        = some (fs', canonical_path folder nested) ∧
      fsExists fs ⟨oldCand (splitext (canonical_path folder nested).data).1
        (splitext (canonical_path folder nested).data).2 k⟩ = false ∧
      (⟨oldCand (splitext (canonical_path folder nested).data).1
        (splitext (canonical_path folder nested).data).2 k⟩ : String)
        ≠ canonical_path folder nested ∧
      fsGet fs' (canonical_path folder nested) = none ∧
      fsGet fs' ⟨oldCand (splitext (canonical_path folder nested).data).1
        (splitext (canonical_path folder nested).data).2 k⟩ = some content ∧
      (∀ q : String, q ≠ canonical_path folder nested →
        q ≠ ⟨oldCand (splitext (canonical_path folder nested).data).1
          (splitext (canonical_path folder nested).data).2 k⟩ →
        fsGet fs' q = fsGet fs q) :=
  rotation_spec fs folder nested content hclean hget hheader

/-- Witness for C3 at a concrete input: a one-file filesystem holding the
main manifest of directory `d` with the correct header. -/
theorem get_checksum_save_location_rotation_witness :
    ∃ (fs' : Fs) (k : Nat),
      get_checksum_save_location [(canonical_path "d" false, "; main_checksum\nx\n")]
          "d" false false
        = some (fs', canonical_path "d" false) ∧
      fsExists [(canonical_path "d" false, "; main_checksum\nx\n")]
        ⟨oldCand (splitext (canonical_path "d" false).data).1
          (splitext (canonical_path "d" false).data).2 k⟩ = false ∧
      (⟨oldCand (splitext (canonical_path "d" false).data).1
        (splitext (canonical_path "d" false).data).2 k⟩ : String)
        ≠ canonical_path "d" false ∧
      fsGet fs' (canonical_path "d" false) = none ∧
      fsGet fs' ⟨oldCand (splitext (canonical_path "d" false).data).1
        (splitext (canonical_path "d" false).data).2 k⟩
        = some "; main_checksum\nx\n" ∧
      (∀ q : String, q ≠ canonical_path "d" false →
        q ≠ ⟨oldCand (splitext (canonical_path "d" false).data).1
          (splitext (canonical_path "d" false).data).2 k⟩ →
        fsGet fs' q = fsGet [(canonical_path "d" false, "; main_checksum\nx\n")] q) :=
  get_checksum_save_location_rotation
    [(canonical_path "d" false, "; main_checksum\nx\n")] "d" false
    "; main_checksum\nx\n" (by decide) (by decide) (by decide)

/-! ## C4: append_unique_lines_to_file -/

theorem append_unique_absent (fs : Fs) (filepath : String) (lines : List String)
    (h : fsGet fs filepath = none) :
    append_unique_lines_to_file fs filepath lines
      = fsSet fs filepath ⟨joinLines (lines.map String.data)⟩ := by
  show (match fsGet fs filepath with
    | none => fsSet fs filepath ⟨joinLines (lines.map String.data)⟩
    | some content =>
      fsSet fs filepath ⟨content.data ++ joinLines
        ((lines.filter (fun (l : String) =>
          l.data ∉ readlines content.data)).map String.data)⟩) = _
  rw [h]

theorem append_unique_present (fs : Fs) (filepath : String) (lines : List String)
    (content : String) (h : fsGet fs filepath = some content) :
    append_unique_lines_to_file fs filepath lines
      = fsSet fs filepath ⟨content.data ++ joinLines
          ((lines.filter (fun l => l.data ∉ readlines content.data)).map String.data)⟩ := by
  show (match fsGet fs filepath with
    | none => fsSet fs filepath ⟨joinLines (lines.map String.data)⟩
    | some content =>
      fsSet fs filepath ⟨content.data ++ joinLines
        ((lines.filter (fun (l : String) =>
          l.data ∉ readlines content.data)).map String.data)⟩) = _
  rw [h]

/-- C4 counterexample: the claim says `append_unique_lines_to_file` never
leaves the file containing a line twice that it did not already contain
twice, including when the same new line occurs more than once in the input
list.  In fact, when the file is absent all input lines are written verbatim
(duplicates included), and when the file exists the existing-line snapshot
is not updated while appending, so an absent line occurring twice in the
input is written twice. -/
theorem append_unique_lines_counterexample :
    (fsGet (append_unique_lines_to_file [] "f" ["a\n", "a\n"]) "f" = some "a\na\n" ∧
      (readlines ("a\na\n" : String).data).count ("a\n" : String).data = 2) ∧
    (fsGet (append_unique_lines_to_file [("f", "b\n")] "f" ["a\n", "a\n"]) "f"
        = some "b\na\na\n" ∧
      (readlines ("b\na\na\n" : String).data).count ("a\n" : String).data = 2 ∧
      (readlines ("b\n" : String).data).count ("a\n" : String).data = 0) := by
  decide

/-- C4 as amended: the file is created if absent, with every input line
written verbatim (in-list duplicates included); when the file already exists
with content `C`, the call appends exactly those input lines not already
present verbatim in `C` — so a line already present in the file before the
call is never written again — but the snapshot of existing lines is not
updated during the call, so duplicates within the input list are all
appended. -/
theorem append_unique_lines_spec (fs : Fs) (filepath : String)
    (lines : List String) :
    (fsGet fs filepath = none →
      fsGet (append_unique_lines_to_file fs filepath lines) filepath
        = some ⟨joinLines (lines.map String.data)⟩) ∧
    (∀ content, fsGet fs filepath = some content →
      fsGet (append_unique_lines_to_file fs filepath lines) filepath
        = some ⟨content.data ++ joinLines
            ((lines.filter (fun l => l.data ∉ readlines content.data)).map String.data)⟩ ∧
      ∀ l ∈ lines, l.data ∈ readlines content.data →
        l ∉ lines.filter (fun l => l.data ∉ readlines content.data)) := by
  constructor
  · intro h
    rw [append_unique_absent fs filepath lines h]
    exact fsGet_fsSet_self _ _ _
  · intro content h
    constructor
    · rw [append_unique_present fs filepath lines content h]
      exact fsGet_fsSet_self _ _ _
    · intro l _ hpresent hfilter
      have := (List.mem_filter.mp hfilter).2
      simp only [decide_eq_true_eq] at this
      exact this hpresent

/-- Witness for C4 (amended) at a concrete input: with existing content
`b\n` and input lines `[b\n, c\n]`, only `c\n` is appended. -/
theorem append_unique_lines_spec_witness :
    fsGet (append_unique_lines_to_file [("f", "b\n")] "f" ["b\n", "c\n"]) "f"
      = some ⟨("b\n" : String).data ++ joinLines
          ((["b\n", "c\n"].filter
            (fun l => l.data ∉ readlines ("b\n" : String).data)).map String.data)⟩ :=
  ((append_unique_lines_spec [("f", "b\n")] "f" ["b\n", "c\n"]).2 "b\n" rfl).1

/-- Witness for C7 at a concrete input: `x` is listed twice in the unsorted
duplicate partition with checksums `h0` and `h1`; the fresh hash `h1` matches
the second candidate, so the line `./d/x -> h1` is emitted. -/
theorem generate_file_duplicate_partition_witness :
    generate_file id (fun _ => "h1") "r" "./d" [] [] [] [] ["x", "x"] ["h0", "h1"]
      none [] "x" =
    some (GenOutcome.emit (CustomMD5Line.get_custom_md5line_string "./d/x" "h1" ++ "\n")) := by
  have h := (generate_file_duplicate_partition id (fun _ => "h1") "r" "./d"
    [] [] [] [] ["x", "x"] ["h0", "h1"] none [] "x"
    (by decide) (by decide) (by intro ex hx; cases hx) (by decide) (by decide)
    (by decide) "./d/x" (by decide)).1 (by decide)
  exact h

/-! ## C6: machinery for remove_missing_checksums -/

theorem opt_eq_some_getD {α : Type} (o : Option α) (d : α) (h : o.isSome = true) :
    o = some (o.getD d) := by
  cases o with
  | none => cases h
  | some x => rfl

theorem joinLines_readlines : ∀ l : List Char, joinLines (readlines l) = l := by
  intro l
  induction l with
  | nil => rfl
  | cons c t ih =>
    rw [readlines]
    by_cases hc : c = '\n'
    · rw [if_pos hc, hc]
      simp only [joinLines, List.flatten_cons] at ih ⊢
      simp [ih]
    · rw [if_neg hc]
      cases hr : readlines t with
      | nil =>
        rw [hr] at ih
        simp only [joinLines, List.flatten_nil] at ih
        show joinLines [[c]] = c :: t
        simp [joinLines, ← ih]
      | cons l0 ls0 =>
        rw [hr] at ih
        simp only [joinLines, List.flatten_cons] at ih
        show joinLines ((c :: l0) :: ls0) = c :: t
        simp only [joinLines, List.flatten_cons, List.cons_append]
        rw [ih]

theorem readlines_append_line : ∀ (a : List Char), '\n' ∉ a →
    ∀ X : List Char, readlines (a ++ '\n' :: X) = (a ++ ['\n']) :: readlines X := by
  intro a
  induction a with
  | nil =>
    intro _ X
    show readlines ('\n' :: X) = ['\n'] :: readlines X
    rw [readlines, if_pos rfl]
  | cons c t ih =>
    intro hnot X
    have hc : c ≠ '\n' := fun he => hnot (he ▸ List.mem_cons_self _ _)
    show readlines (c :: (t ++ '\n' :: X)) = ((c :: t) ++ ['\n']) :: readlines X
    rw [readlines, if_neg hc, ih (fun hm => hnot (List.mem_cons_of_mem _ hm)) X]
    rfl

theorem readlines_joinLines : ∀ ls : List (List Char), (∀ l ∈ ls, isLine l) →
    readlines (joinLines ls) = ls := by
  intro ls
  induction ls with
  | nil => intro _; rfl
  | cons l t ih =>
    intro h
    obtain ⟨a, hl, hna⟩ := h l (List.mem_cons_self _ _)
    show readlines (joinLines (l :: t)) = l :: t
    simp only [joinLines, List.flatten_cons]
    rw [hl, List.append_assoc, List.singleton_append, readlines_append_line a hna]
    show (a ++ ['\n']) :: readlines (joinLines t) = (a ++ ['\n']) :: t
    rw [ih (fun x hx => h x (List.mem_cons_of_mem _ hx))]

theorem takeWhile_append_cons (q : Char → Bool) :
    ∀ (a : List Char) (x : Char), (∀ c ∈ a, q c = true) → q x = false →
    ∀ b : List Char, (a ++ x :: b).takeWhile q = a := by
  intro a
  induction a with
  | nil =>
    intro x _ hx b
    show (x :: b).takeWhile q = []
    rw [List.takeWhile_cons, hx]
    rfl
  | cons c t ih =>
    intro x h hx b
    have hc : q c = true := h c (List.mem_cons_self _ _)
    show ((c :: t) ++ x :: b).takeWhile q = c :: t
    rw [List.cons_append, List.takeWhile_cons, hc]
    rw [ih x (fun d hd => h d (List.mem_cons_of_mem _ hd)) hx b, if_pos rfl]

theorem custom_extract_isSome (nfc : String → String) (s : String)
    (hval : CustomMD5Line.validate_md5line s = some true) :
    (CustomMD5Line.extract_filepath nfc s none).isSome = true ∧
    (CustomMD5Line.extract_checksum s).isSome = true := by
  cases hr : rsplitOnceSub [' ', '-', '>', ' '] (MD5Line.clean_md5line s.data) with
  | none =>
    rw [CustomMD5Line.validate_md5line, hr] at hval
    cases hval
  | some pr =>
    obtain ⟨pre, post⟩ := pr
    constructor
    · rw [CustomMD5Line.extract_filepath, hval]
      show (match rsplitOnceSub [' ', '-', '>', ' '] (MD5Line.clean_md5line s.data) with
        | none => none
        | some (pre, _) => make_relative_path nfc ⟨pre⟩ none).isSome = true
      rw [hr]
      show (make_relative_path nfc ⟨pre⟩ none).isSome = true
      rfl
    · rw [CustomMD5Line.extract_checksum, hval]
      show ((rsplitOnceSub [' ', '-', '>', ' '] (MD5Line.clean_md5line s.data)).map
        (fun q => (⟨q.2⟩ : String))).isSome = true
      rw [hr]
      rfl

theorem custom_parse_eq (nfc : String → String) (s : String)
    (hval : CustomMD5Line.validate_md5line s = some true) :
    CustomMD5Line.extract_filepath nfc s none = some (fpOfD nfc s.data) ∧
    CustomMD5Line.extract_checksum s = some (ckOfD s.data) := by
  obtain ⟨h1, h2⟩ := custom_extract_isSome nfc s hval
  exact ⟨opt_eq_some_getD _ "" h1, opt_eq_some_getD _ "" h2⟩

theorem extract_from_md5line_custom_eq (nfc : String → String) (s : String)
    (hnfc : ∀ x, nfc x = x)
    (hval : CustomMD5Line.validate_md5line s = some true) :
    extract_from_md5line_custom nfc s = some (fpOfD nfc s.data, ckOfD s.data) := by
  obtain ⟨h1, h2⟩ := custom_parse_eq nfc s hval
  show (match CustomMD5Line.extract_filepath nfc (nfc s) none,
             CustomMD5Line.extract_checksum (nfc s) with
        | some fp, some ck => some (fp, ck)
        | _, _ => none) = _
  rw [hnfc s, h1, h2]

theorem extract_line_step_parse (nfc : String → String) (line : List Char)
    (hnfc : ∀ x, nfc x = x)
    (h1 : line.take 1 ≠ "Ã¯".data) (h2 : line.take 1 ≠ [';'])
    (hval : CustomMD5Line.validate_md5line ⟨line⟩ = some true) :
    extract_line_step nfc line = some (some (fpOfD nfc line, ckOfD line)) := by
  have h3 : line ≠ ['\n'] := by
    intro he
    rw [he] at hval
    exact absurd hval (by decide)
  obtain ⟨hfp, hck⟩ := custom_parse_eq nfc ⟨line⟩ hval
  show (if (nfc ⟨line⟩).data.take 1 = "Ã¯".data ∨ (nfc ⟨line⟩).data.take 1 = [';'] ∨
        (nfc ⟨line⟩).data = ['\n'] then some none
      else
        match CustomMD5Line.extract_filepath nfc ⟨(nfc ⟨line⟩).data⟩ none,
              CustomMD5Line.extract_checksum ⟨(nfc ⟨line⟩).data⟩ with
        | some fp, some ck => some (some (fp, ck))
        | _, _ => none) = _
  rw [hnfc ⟨line⟩]
  show (if line.take 1 = "Ã¯".data ∨ line.take 1 = [';'] ∨ line = ['\n'] then some none
      else
        match CustomMD5Line.extract_filepath nfc ⟨line⟩ none,
              CustomMD5Line.extract_checksum ⟨line⟩ with
        | some fp, some ck => some (some (fp, ck))
        | _, _ => none) = _
  rw [if_neg (by simp [h1, h2, h3]), hfp, hck]

theorem extract_line_step_skip (nfc : String → String) (line : List Char)
    (hnfc : ∀ x, nfc x = x) (h : line.take 1 = [';']) :
    extract_line_step nfc line = some none := by
  show (if (nfc ⟨line⟩).data.take 1 = "Ã¯".data ∨ (nfc ⟨line⟩).data.take 1 = [';'] ∨
        (nfc ⟨line⟩).data = ['\n'] then some none
      else
        match CustomMD5Line.extract_filepath nfc ⟨(nfc ⟨line⟩).data⟩ none,
              CustomMD5Line.extract_checksum ⟨(nfc ⟨line⟩).data⟩ with
        | some fp, some ck => some (some (fp, ck))
        | _, _ => none) = some none
  rw [hnfc ⟨line⟩]
  show (if line.take 1 = "Ã¯".data ∨ line.take 1 = [';'] ∨ line = ['\n'] then some none
      else
        match CustomMD5Line.extract_filepath nfc ⟨line⟩ none,
              CustomMD5Line.extract_checksum ⟨line⟩ with
        | some fp, some ck => some (some (fp, ck))
        | _, _ => none) = some none
  rw [if_pos (Or.inr (Or.inl h))]

theorem extract_lines_cons (nfc : String → String) (line : List Char)
    (rest : List (List Char)) :
    extract_lines nfc (line :: rest) =
      match extract_line_step nfc line with
      | none => none
      | some none => extract_lines nfc rest
      | some (some (fp, ck)) =>
        match extract_lines nfc rest with
        | none => none
        | some (fps, cks) => some (fp :: fps, ck :: cks) := rfl

theorem extract_lines_parse (nfc : String → String) (hnfc : ∀ x, nfc x = x) :
    ∀ ls : List (List Char),
    (∀ l ∈ ls, CustomMD5Line.validate_md5line ⟨l⟩ = some true ∧
      l.take 1 ≠ "Ã¯".data ∧ l.take 1 ≠ [';']) →
    extract_lines nfc ls = some (ls.map (fun l => fpOfD nfc l), ls.map ckOfD) := by
  intro ls
  induction ls with
  | nil => intro _; rfl
  | cons l t ih =>
    intro h
    obtain ⟨hval, h1, h2⟩ := h l (List.mem_cons_self _ _)
    rw [extract_lines_cons, extract_line_step_parse nfc l hnfc h1 h2 hval,
      ih (fun x hx => h x (List.mem_cons_of_mem _ hx))]
    rfl

theorem collect_missing_cons (fs : Fs) (folder fp : String) (rest : List String) :
    collect_missing fs folder (fp :: rest) =
      match concat_filepaths folder fp with
      | none => none
      | some full =>
        match collect_missing fs folder rest with
        | none => none
        | some ms => if fsExists fs full then some ms else some (fp :: ms) := rfl

theorem collect_missing_eq (fs : Fs) (folder : String) :
    ∀ fps : List String, (∀ fp ∈ fps, (concat_filepaths folder fp).isSome = true) →
    collect_missing fs folder fps
      = some (fps.filter
          (fun fp => !(fsExists fs ((concat_filepaths folder fp).getD "")))) := by
  intro fps
  induction fps with
  | nil => intro _; rfl
  | cons fp t ih =>
    intro h
    have hs := h fp (List.mem_cons_self _ _)
    rw [collect_missing_cons, opt_eq_some_getD _ "" hs,
      ih (fun x hx => h x (List.mem_cons_of_mem _ hx))]
    show (if fsExists fs ((concat_filepaths folder fp).getD "") = true
        then some (t.filter
          (fun fp => !(fsExists fs ((concat_filepaths folder fp).getD ""))))
        else some (fp :: t.filter
          (fun fp => !(fsExists fs ((concat_filepaths folder fp).getD "")))))
      = some ((fp :: t).filter
          (fun fp => !(fsExists fs ((concat_filepaths folder fp).getD ""))))
    rw [List.filter_cons]
    cases hex : fsExists fs ((concat_filepaths folder fp).getD "") with
    | true => simp [hex]
    | false => simp [hex]

theorem partition_removals_cons (nfc : String → String) (confirm : String → Bool)
    (filepaths : List String) (require_confirmation : Bool) (line : List Char)
    (rest : List (List Char)) :
    partition_removals nfc confirm filepaths require_confirmation (line :: rest) =
      match extract_from_md5line_custom nfc ⟨line⟩ with
      | none => none
      | some (fp, _) =>
        match partition_removals nfc confirm filepaths require_confirmation rest with
        | none => none
        | some (keep, removed) =>
          if fp ∈ filepaths then
            if (if ¬ require_confirmation then true else confirm ⟨line⟩) then
              some (keep, line :: removed)
            else some (line :: keep, removed)
          else some (line :: keep, removed) := rfl

theorem partition_removals_eq (nfc : String → String) (confirm : String → Bool)
    (filepaths : List String) (require_confirmation : Bool)
    (hnfc : ∀ x, nfc x = x) (hconf : ∀ x, confirm x = true) :
    ∀ ls : List (List Char),
    (∀ l ∈ ls, CustomMD5Line.validate_md5line ⟨l⟩ = some true) →
    partition_removals nfc confirm filepaths require_confirmation ls
      = some (ls.filter (fun l => !(decide (fpOfD nfc l ∈ filepaths))),
              ls.filter (fun l => decide (fpOfD nfc l ∈ filepaths))) := by
  intro ls
  induction ls with
  | nil => intro _; rfl
  | cons l t ih =>
    intro h
    have hval := h l (List.mem_cons_self _ _)
    have hrem : (if ¬ require_confirmation then true else confirm ⟨l⟩) = true := by
      cases require_confirmation <;> simp [hconf]
    rw [partition_removals_cons, extract_from_md5line_custom_eq nfc ⟨l⟩ hnfc hval,
      ih (fun x hx => h x (List.mem_cons_of_mem _ hx))]
    show (if fpOfD nfc l ∈ filepaths then
        if (if ¬ require_confirmation then true else confirm ⟨l⟩) = true then
          some (t.filter (fun l => !(decide (fpOfD nfc l ∈ filepaths))),
            l :: t.filter (fun l => decide (fpOfD nfc l ∈ filepaths)))
        else some (l :: t.filter (fun l => !(decide (fpOfD nfc l ∈ filepaths))),
          t.filter (fun l => decide (fpOfD nfc l ∈ filepaths)))
      else some (l :: t.filter (fun l => !(decide (fpOfD nfc l ∈ filepaths))),
        t.filter (fun l => decide (fpOfD nfc l ∈ filepaths))))
      = some ((l :: t).filter (fun l => !(decide (fpOfD nfc l ∈ filepaths))),
          (l :: t).filter (fun l => decide (fpOfD nfc l ∈ filepaths)))
    rw [List.filter_cons, List.filter_cons]
    by_cases hm : fpOfD nfc l ∈ filepaths
    · rw [if_pos hm, if_pos hrem]
      simp [hm]
    · rw [if_neg hm]
      simp [hm]

theorem extract_from_md5file_eq (nfc : String → String) (fs : Fs)
    (md5_filepath : String) (content : String) (rest : List (List Char))
    (hnfc : ∀ x, nfc x = x)
    (hget : fsGet fs md5_filepath = some content)
    (hlines : readlines content.data = (main_checksum_header.data ++ ['\n']) :: rest)
    (hgood : ∀ l ∈ rest, CustomMD5Line.validate_md5line ⟨l⟩ = some true ∧
      l.take 1 ≠ "Ã¯".data ∧ l.take 1 ≠ [';'])
    (hheader : firstLine content.data = main_checksum_header.data) :
    extract_from_md5file nfc fs md5_filepath false
      = some (rest.map (fun l => fpOfD nfc l), rest.map ckOfD) := by
  have hcheck : check_custom_md5file_header fs md5_filepath false = some true :=
    check_header_true fs md5_filepath false content hget hheader
  show (match fsGet fs md5_filepath with
    | none => none
    | some content =>
      match check_custom_md5file_header fs md5_filepath false with
      | some true => extract_lines nfc (readlines content.data)
      | _ => none) = _
  rw [hget]
  show (match check_custom_md5file_header fs md5_filepath false with
    | some true => extract_lines nfc (readlines content.data)
    | _ => none) = _
  rw [hcheck]
  show extract_lines nfc (readlines content.data) = _
  rw [hlines, extract_lines_cons,
    extract_line_step_skip nfc (main_checksum_header.data ++ ['\n']) hnfc (by decide)]
  show extract_lines nfc rest = _
  rw [extract_lines_parse nfc hnfc rest hgood]

theorem finding_missing_files_eq (nfc : String → String) (fs : Fs)
    (folder md5_filepath : String) (content : String) (rest : List (List Char))
    (hnfc : ∀ x, nfc x = x)
    (hget : fsGet fs md5_filepath = some content)
    (hlines : readlines content.data = (main_checksum_header.data ++ ['\n']) :: rest)
    (hgood : ∀ l ∈ rest, CustomMD5Line.validate_md5line ⟨l⟩ = some true ∧
      l.take 1 ≠ "Ã¯".data ∧ l.take 1 ≠ [';'])
    (hheader : firstLine content.data = main_checksum_header.data)
    (hcat : ∀ l ∈ rest, (concat_filepaths folder (fpOfD nfc l)).isSome = true) :
    finding_missing_files nfc fs folder md5_filepath
      = some ((rest.map (fun l => fpOfD nfc l)).filter
          (fun fp => !(fsExists fs ((concat_filepaths folder fp).getD "")))) := by
  show (match extract_from_md5file nfc fs md5_filepath false with
    | none => none
    | some (filepaths, _) => collect_missing fs folder filepaths) = _
  rw [extract_from_md5file_eq nfc fs md5_filepath content rest hnfc hget hlines
    hgood hheader]
  show collect_missing fs folder (rest.map (fun l => fpOfD nfc l)) = _
  rw [collect_missing_eq fs folder _ ?hs]
  case hs =>
    intro fp hfp
    obtain ⟨l, hl, rfl⟩ := List.mem_map.mp hfp
    exact hcat l hl

theorem dropLeadingSlashesRev_spec : ∀ (r r' : List Char),
    dropLeadingSlashesRev r = some r' →
    r' ≠ [] ∧ r'.head? ≠ some '/' ∧ r'.length ≤ r.length ∧
    (r'.length = r.length → r' = r) := by
  intro r
  induction r with
  | nil => intro r' h; cases h
  | cons c t ih =>
    intro r' h
    rw [dropLeadingSlashesRev] at h
    by_cases hc : c = '/'
    · rw [if_pos hc] at h
      obtain ⟨h1, h2, h3, _⟩ := ih r' h
      refine ⟨h1, h2, ?_, ?_⟩
      · rw [List.length_cons]
        omega
      · intro hl
        rw [List.length_cons] at hl
        omega
    · rw [if_neg hc] at h
      injection h with h2
      subst h2
      refine ⟨by simp, ?_, le_refl _, fun _ => rfl⟩
      simp [hc]

theorem clean_fix_facts (folder : String)
    (h : clean_filepath folder false = some folder) :
    slashify folder.data = folder.data ∧ folder.data ≠ [] ∧
    folder.data.getLast? ≠ some '/' := by
  have h' : (dropTrailingSlashes (slashify folder.data)).map
      (fun l => (⟨l⟩ : String)) = some folder := h
  cases hd : dropTrailingSlashes (slashify folder.data) with
  | none => rw [hd] at h'; cases h'
  | some l' =>
    rw [hd, Option.map_some'] at h'
    injection h' with h2
    have hl' : l' = folder.data := congrArg String.data h2
    have hd' : (dropLeadingSlashesRev (slashify folder.data).reverse).map
        List.reverse = some l' := hd
    cases hrr : dropLeadingSlashesRev (slashify folder.data).reverse with
    | none => rw [hrr] at hd'; cases hd'
    | some r' =>
      rw [hrr, Option.map_some'] at hd'
      injection hd' with h3
      obtain ⟨hne, hhead, hlen, heq⟩ := dropLeadingSlashesRev_spec _ _ hrr
      have hlen2 : r'.length = (slashify folder.data).reverse.length := by
        calc r'.length = r'.reverse.length := (List.length_reverse _).symm
          _ = l'.length := by rw [h3]
          _ = folder.data.length := by rw [hl']
          _ = (slashify folder.data).reverse.length := by
            rw [List.length_reverse, slashify, List.length_map]
      have hr'eq : r' = (slashify folder.data).reverse := heq hlen2
      have hls : l' = slashify folder.data := by
        rw [← h3, hr'eq, List.reverse_reverse]
      have hsl : slashify folder.data = folder.data := by
        rw [← hls, hl']
      refine ⟨hsl, ?_, ?_⟩
      · intro hnil
        apply hne
        rw [hr'eq, hsl, hnil]
        rfl
      · intro hlast
        apply hhead
        rw [hr'eq, hsl, List.head?_reverse]
        exact hlast

theorem clean_of_getLast (l : List Char) (hs : slashify l = l) (c : Char)
    (hlast : l.getLast? = some c) (hc : c ≠ '/') :
    clean_filepath ⟨l⟩ false = some ⟨l⟩ := by
  have hrev : l.reverse.head? = some c := by rw [List.head?_reverse, hlast]
  cases hr : l.reverse with
  | nil => rw [hr] at hrev; cases hrev
  | cons c0 t0 =>
    rw [hr] at hrev
    injection hrev with hc0
    have hdls : dropLeadingSlashesRev (c0 :: t0) = some (c0 :: t0) := by
      rw [dropLeadingSlashesRev, if_neg]
      rw [hc0]
      exact hc
    show (dropTrailingSlashes (slashify l)).map (fun x => (⟨x⟩ : String)) = some ⟨l⟩
    rw [hs]
    show ((dropLeadingSlashesRev l.reverse).map List.reverse).map
      (fun x => (⟨x⟩ : String)) = some ⟨l⟩
    rw [hr, hdls, Option.map_some', Option.map_some', ← hr, List.reverse_reverse]

theorem canonical_path_data (folder : String) :
    (canonical_path folder false).data
      = folder.data ++ ('/' :: main_checksum_filename.data) := by
  show (folder ++ "/" ++ main_checksum_filename).data = _
  rw [data_append, data_append, List.append_assoc]
  rfl

theorem getLast?_append_cons {α : Type} : ∀ (a : List α) (x : α) (b : List α),
    (a ++ x :: b).getLast? = (x :: b).getLast? := by
  intro a
  induction a with
  | nil => intro x b; rfl
  | cons c t ih =>
    intro x b
    rw [List.cons_append, ← ih x b]
    cases ht : t ++ x :: b with
    | nil => exact absurd ht (by simp)
    | cons y u => rw [List.getLast?_cons_cons]

theorem clean_canonical (folder : String)
    (h : clean_filepath folder false = some folder) :
    clean_filepath (canonical_path folder false) false
      = some (canonical_path folder false) := by
  obtain ⟨hsl, _, _⟩ := clean_fix_facts folder h
  have hdata := canonical_path_data folder
  have hs2 : slashify (canonical_path folder false).data
      = (canonical_path folder false).data := by
    rw [hdata, slashify, List.map_append, ← slashify, hsl, ← slashify]
    rfl
  have hl2 : (canonical_path folder false).data.getLast? = some 't' := by
    rw [hdata, getLast?_append_cons]
    decide
  exact clean_of_getLast (canonical_path folder false).data hs2 't' hl2 (by decide)

theorem findCharLast_not_mem (c : Char) : ∀ l : List Char, c ∉ l →
    findCharLast c l = none := by
  intro l
  induction l with
  | nil => intro _; rfl
  | cons a t ih =>
    intro h
    rw [findCharLast, ih (fun hm => h (List.mem_cons_of_mem _ hm))]
    rw [if_neg (fun he => h (List.mem_cons.mpr (Or.inl he.symm)))]

theorem findCharLast_append_cons (c : Char) (a b : List Char)
    (hb : c ∉ b) : findCharLast c (a ++ c :: b) = some a.length := by
  induction a with
  | nil => simp [findCharLast, findCharLast_not_mem c b hb]
  | cons x t ih => simp [findCharLast, ih]

theorem getLast?_some_of_ne_nil {α : Type} : ∀ l : List α, l ≠ [] →
    ∃ c : α, l.getLast? = some c := by
  intro l
  induction l with
  | nil => intro h; exact absurd rfl h
  | cons a t ih =>
    intro _
    cases t with
    | nil => exact ⟨a, rfl⟩
    | cons b u =>
      obtain ⟨c, hc⟩ := ih (by simp)
      exact ⟨c, by rw [List.getLast?_cons_cons, hc]⟩

theorem mem_of_getLast?_eq {α : Type} : ∀ (l : List α) (c : α),
    l.getLast? = some c → c ∈ l := by
  intro l
  induction l with
  | nil => intro c h; cases h
  | cons a t ih =>
    intro c h
    cases t with
    | nil =>
      injection h with h1
      exact List.mem_cons.mpr (Or.inl h1.symm)
    | cons b u =>
      rw [List.getLast?_cons_cons] at h
      exact List.mem_cons_of_mem a (ih c h)

theorem take_len_add {α : Type} : ∀ (a b : List α) (k : Nat),
    (a ++ b).take (a.length + k) = a ++ b.take k := by
  intro a
  induction a with
  | nil => intro b k; rw [List.nil_append, List.nil_append, List.length_nil, Nat.zero_add]
  | cons c t ih =>
    intro b k
    rw [List.cons_append]
    show ((c :: (t ++ b)).take (t.length + 1 + k)) = (c :: t) ++ b.take k
    rw [Nat.add_right_comm, List.take_succ_cons, ih b k, List.cons_append]

theorem drop_len_add {α : Type} : ∀ (a b : List α) (k : Nat),
    (a ++ b).drop (a.length + k) = b.drop k := by
  intro a
  induction a with
  | nil => intro b k; rw [List.nil_append, List.length_nil, Nat.zero_add]
  | cons c t ih =>
    intro b k
    rw [List.cons_append]
    show ((c :: (t ++ b)).drop (t.length + 1 + k)) = b.drop k
    rw [Nat.add_right_comm, List.drop_succ_cons, ih b k]

theorem os_path_split_canonical (folder : String)
    (hne : folder.data ≠ []) (hlast : folder.data.getLast? ≠ some '/') :
    os_path_split (canonical_path folder false).data
      = (folder.data, main_checksum_filename.data) := by
  have hdata := canonical_path_data folder
  have hfind : findCharLast '/' (canonical_path folder false).data
      = some folder.data.length := by
    rw [hdata]
    exact findCharLast_append_cons '/' folder.data main_checksum_filename.data
      (by decide)
  obtain ⟨c0, hc0⟩ := getLast?_some_of_ne_nil folder.data hne
  have hc0ne : c0 ≠ '/' := fun he => hlast (he ▸ hc0)
  have hmem : c0 ∈ folder.data := mem_of_getLast?_eq folder.data c0 hc0
  have htake : (canonical_path folder false).data.take (folder.data.length + 1)
      = folder.data ++ ['/'] := by
    rw [hdata, take_len_add folder.data ('/' :: main_checksum_filename.data) 1]
    rfl
  have hdrop : (canonical_path folder false).data.drop (folder.data.length + 1)
      = main_checksum_filename.data := by
    rw [hdata, drop_len_add folder.data ('/' :: main_checksum_filename.data) 1]
    rfl
  have hany : ((canonical_path folder false).data.take
      (folder.data.length + 1)).any (fun c => c ≠ '/') = true := by
    rw [htake]
    refine List.any_eq_true.mpr ⟨c0, List.mem_append_left _ hmem, ?_⟩
    simp [hc0ne]
  have hdts : dropTrailingSlashes ((canonical_path folder false).data.take
      (folder.data.length + 1)) = some folder.data := by
    rw [htake]
    show (dropLeadingSlashesRev (folder.data ++ ['/']).reverse).map List.reverse
      = some folder.data
    rw [List.reverse_append]
    show (dropLeadingSlashesRev ('/' :: folder.data.reverse)).map List.reverse
      = some folder.data
    rw [dropLeadingSlashesRev, if_pos rfl]
    have hrev : folder.data.reverse.head? = some c0 := by
      rw [List.head?_reverse, hc0]
    cases hr : folder.data.reverse with
    | nil => rw [hr] at hrev; cases hrev
    | cons d u =>
      rw [hr] at hrev
      injection hrev with hd
      rw [dropLeadingSlashesRev, if_neg (by rw [hd]; exact hc0ne)]
      rw [Option.map_some', ← hr, List.reverse_reverse]
  show (match findCharLast '/' (canonical_path folder false).data with
    | none => ([], (canonical_path folder false).data)
    | some i =>
      let head := (canonical_path folder false).data.take (i + 1)
      let tail := (canonical_path folder false).data.drop (i + 1)
      if head.any (fun c => c ≠ '/') then
        match dropTrailingSlashes head with
        | some h => (h, tail)
        | none => (head, tail)
      else (head, tail)) = _
  rw [hfind]
  show (if ((canonical_path folder false).data.take
      (folder.data.length + 1)).any (fun c => c ≠ '/') then
      match dropTrailingSlashes ((canonical_path folder false).data.take
        (folder.data.length + 1)) with
      | some h => (h, (canonical_path folder false).data.drop
          (folder.data.length + 1))
      | none => ((canonical_path folder false).data.take (folder.data.length + 1),
          (canonical_path folder false).data.drop (folder.data.length + 1))
    else ((canonical_path folder false).data.take (folder.data.length + 1),
        (canonical_path folder false).data.drop (folder.data.length + 1))) = _
  rw [if_pos hany, hdts]
  show (folder.data, (canonical_path folder false).data.drop
    (folder.data.length + 1)) = _
  rw [hdrop]

theorem gcsl_updating_eval (fs : Fs) (folder : String) (content : String)
    (hclean : clean_filepath folder false = some folder)
    (hget : fsGet fs (canonical_path folder false) = some content)
    (hheader : firstLine content.data = main_checksum_header.data) :
    get_checksum_save_location fs folder true false
      = some (fs, canonical_path folder false) := by
  have hex : fsExists fs (canonical_path folder false) = true := by
    rw [fsExists, hget]
    rfl
  have hcheck : check_custom_md5file_header fs (canonical_path folder false) false
      = some true := check_header_true fs _ false content hget hheader
  show (match clean_filepath folder false with
    | none => none
    | some f => get_checksum_save_location_clean fs f true false) = _
  rw [hclean]
  show (if fsExists fs (canonical_path folder false) = true then
      match check_custom_md5file_header fs (canonical_path folder false) false with
      | none => none
      | some false => none
      | some true =>
        if true = true then some (fs, canonical_path folder false)
        else
          match find_free_old_name fs
              (splitext (canonical_path folder false).data).1
              (splitext (canonical_path folder false).data).2 fs.length 0 with
          | none => none
          | some old_name =>
            some (fsRename fs (canonical_path folder false) ⟨old_name⟩,
              canonical_path folder false)
    else some (fs, canonical_path folder false)) = _
  rw [if_pos hex, hcheck]
  rfl

theorem map_mk_data : ∀ ls : List (List Char),
    (ls.map (fun l => (⟨l⟩ : String))).map String.data = ls := by
  intro ls
  induction ls with
  | nil => rfl
  | cons a t ih =>
    simp only [List.map_cons]
    rw [ih]

theorem remove_checksums_eval (nfc : String → String) (confirm : String → Bool)
    (fs : Fs) (folder : String) (require_confirmation : Bool)
    (missing : List String) (content : String) (rest : List (List Char))
    (fs1 : Fs)
    (hnfc : ∀ x, nfc x = x) (hconf : ∀ x, confirm x = true)
    (hclean : clean_filepath folder false = some folder)
    (hget : fsGet fs (canonical_path folder false) = some content)
    (hlines : readlines content.data
      = (main_checksum_header.data ++ ['\n']) :: rest)
    (hval : ∀ l ∈ rest, CustomMD5Line.validate_md5line ⟨l⟩ = some true)
    (hrot : get_checksum_save_location fs folder false false
      = some (fs1, canonical_path folder false)) :
    remove_checksums nfc confirm fs (canonical_path folder false) missing
        true require_confirmation
      = some (append_unique_lines_to_file fs1 (canonical_path folder false)
          (((main_checksum_header.data ++ ['\n'])
            :: rest.filter (fun l => !(decide (fpOfD nfc l ∈ missing)))).map
            (fun l => (⟨l⟩ : String))),
          canonical_path folder false,
          (rest.filter (fun l => decide (fpOfD nfc l ∈ missing))).map
            (fun l => (⟨l⟩ : String))) := by
  obtain ⟨hsl, hne, hlast⟩ := clean_fix_facts folder hclean
  have hsplit := os_path_split_canonical folder hne hlast
  have hcc := clean_canonical folder hclean
  have hpart := partition_removals_eq nfc confirm missing require_confirmation
    hnfc hconf rest hval
  show (match fsGet fs (canonical_path folder false) with
    | none => none
    | some content =>
      if (main_checksum_header.data ++ ['\n']) ∉ readlines content.data then none
      else
        match partition_removals nfc confirm missing require_confirmation
            ((readlines content.data).erase
              (main_checksum_header.data ++ ['\n'])) with
        | none => none
        | some (keep, removed) =>
          match clean_filepath (canonical_path folder false) false with
          | none => none
          | some cleaned =>
            match get_checksum_save_location fs
                (⟨(os_path_split cleaned.data).1⟩ : String) (¬ true) false with
            | none => none
            | some (fs1', save_location) =>
              some (append_unique_lines_to_file fs1' save_location
                  (((main_checksum_header.data ++ ['\n']) :: keep).map
                    (fun l => (⟨l⟩ : String))),
                save_location, removed.map (fun l => (⟨l⟩ : String)))) = _
  rw [hget]
  show (if (main_checksum_header.data ++ ['\n']) ∉ readlines content.data then none
      else
        match partition_removals nfc confirm missing require_confirmation
            ((readlines content.data).erase
              (main_checksum_header.data ++ ['\n'])) with
        | none => none
        | some (keep, removed) =>
          match clean_filepath (canonical_path folder false) false with
          | none => none
          | some cleaned =>
            match get_checksum_save_location fs
                (⟨(os_path_split cleaned.data).1⟩ : String) (¬ true) false with
            | none => none
            | some (fs1', save_location) =>
              some (append_unique_lines_to_file fs1' save_location
                  (((main_checksum_header.data ++ ['\n']) :: keep).map
                    (fun l => (⟨l⟩ : String))),
                save_location, removed.map (fun l => (⟨l⟩ : String)))) = _
  rw [hlines, if_neg (fun hn => hn (List.mem_cons_self _ _)),
    List.erase_cons_head, hpart]
  show (match clean_filepath (canonical_path folder false) false with
    | none => none
    | some cleaned =>
      match get_checksum_save_location fs
          (⟨(os_path_split cleaned.data).1⟩ : String) (¬ true) false with
      | none => none
      | some (fs1', save_location) =>
        some (append_unique_lines_to_file fs1' save_location
            (((main_checksum_header.data ++ ['\n'])
              :: rest.filter (fun l => !(decide (fpOfD nfc l ∈ missing)))).map
              (fun l => (⟨l⟩ : String))),
          save_location,
          (rest.filter (fun l => decide (fpOfD nfc l ∈ missing))).map
            (fun l => (⟨l⟩ : String)))) = _
  rw [hcc]
  show (match get_checksum_save_location fs
      (⟨(os_path_split (canonical_path folder false).data).1⟩ : String)
      (¬ true) false with
    | none => none
    | some (fs1', save_location) =>
      some (append_unique_lines_to_file fs1' save_location
          (((main_checksum_header.data ++ ['\n'])
            :: rest.filter (fun l => !(decide (fpOfD nfc l ∈ missing)))).map
            (fun l => (⟨l⟩ : String))),
        save_location,
        (rest.filter (fun l => decide (fpOfD nfc l ∈ missing))).map
          (fun l => (⟨l⟩ : String)))) = _
  rw [hsplit]
  show (match get_checksum_save_location fs folder false false with
    | none => none
    | some (fs1', save_location) =>
      some (append_unique_lines_to_file fs1' save_location
          (((main_checksum_header.data ++ ['\n'])
            :: rest.filter (fun l => !(decide (fpOfD nfc l ∈ missing)))).map
            (fun l => (⟨l⟩ : String))),
        save_location,
        (rest.filter (fun l => decide (fpOfD nfc l ∈ missing))).map
          (fun l => (⟨l⟩ : String)))) = _
  rw [hrot]

/-- C6: for a pruning run of `remove_missing_checksums` with `save_orig =
true` in which every removal is confirmed, over a well-formed main manifest
(correct header line, every body line a valid custom-format line whose
recorded path joins onto the folder), the call returns the number of manifest
lines whose path is missing from the filesystem; the manifest file written at
the end consists of exactly the header plus the lines whose paths exist (so
it contains no line for any missing path), and the prior full manifest
content — including every removed line — survives verbatim under a freshly
chosen `_old` sibling name that did not exist before. -/
theorem remove_missing_checksums_prunes (nfc : String → String)
    (confirm : String → Bool) (fs : Fs) (folder content : String)
    (rest : List (List Char)) (require_confirmation : Bool)
    (hnfc : ∀ x, nfc x = x)
    (hconf : ∀ x, confirm x = true)
    (hclean : clean_filepath folder false = some folder)
    (hget : fsGet fs (canonical_path folder false) = some content)
    (hlines : readlines content.data
      = (main_checksum_header.data ++ ['\n']) :: rest)
    (hgood : ∀ l ∈ rest,
      CustomMD5Line.validate_md5line ⟨l⟩ = some true ∧
      l.take 1 ≠ "Ã¯".data ∧ l.take 1 ≠ [';'] ∧
      (concat_filepaths folder (fpOfD nfc l)).isSome = true ∧
      isLine l) :
    ∃ (fs2 : Fs) (k : Nat),
      remove_missing_checksums nfc confirm fs folder true require_confirmation
        = some ((rest.filter (fun l => missingB nfc fs folder l)).length, fs2) ∧
      fsGet fs2 (canonical_path folder false)
        = some ⟨joinLines ((main_checksum_header.data ++ ['\n'])
            :: rest.filter (fun l => !(missingB nfc fs folder l)))⟩ ∧
      readlines (joinLines ((main_checksum_header.data ++ ['\n'])
          :: rest.filter (fun l => !(missingB nfc fs folder l))))
        = (main_checksum_header.data ++ ['\n'])
            :: rest.filter (fun l => !(missingB nfc fs folder l)) ∧
      (∀ l ∈ rest.filter (fun l => !(missingB nfc fs folder l)),
        missingB nfc fs folder l = false) ∧
      fsExists fs ⟨oldCand (splitext (canonical_path folder false).data).1
        (splitext (canonical_path folder false).data).2 k⟩ = false ∧
      fsGet fs2 ⟨oldCand (splitext (canonical_path folder false).data).1
        (splitext (canonical_path folder false).data).2 k⟩ = some content ∧
      (∀ l ∈ rest, missingB nfc fs folder l = true →
        l ∈ readlines content.data) := by
  have hheader : firstLine content.data = main_checksum_header.data := by
    have hc : content.data
        = (main_checksum_header.data ++ ['\n']) ++ joinLines rest := by
      conv_lhs => rw [← joinLines_readlines content.data, hlines]
      rfl
    rw [firstLine, hc, List.append_assoc, List.singleton_append]
    exact takeWhile_append_cons _ main_checksum_header.data '\n'
      (by decide) (by decide) _
  have hvalid : ∀ l ∈ rest, CustomMD5Line.validate_md5line ⟨l⟩ = some true :=
    fun l hl => (hgood l hl).1
  have hcat : ∀ l ∈ rest, (concat_filepaths folder (fpOfD nfc l)).isSome = true :=
    fun l hl => (hgood l hl).2.2.2.1
  have hupd := gcsl_updating_eval fs folder content hclean hget hheader
  have hfind := finding_missing_files_eq nfc fs folder (canonical_path folder false)
    content rest hnfc hget hlines
    (fun l hl => ⟨(hgood l hl).1, (hgood l hl).2.1, (hgood l hl).2.2.1⟩) hheader hcat
  obtain ⟨fs1, k, hrot, hkfree, hkne, hp_none, hold, _⟩ :=
    rotation_spec fs folder false content hclean hget hheader
  have hbridge : ∀ l ∈ rest,
      decide (fpOfD nfc l ∈ (rest.map (fun l => fpOfD nfc l)).filter
        (fun fp => !(fsExists fs ((concat_filepaths folder fp).getD ""))))
      = missingB nfc fs folder l := by
    intro l hl
    cases hmb : missingB nfc fs folder l with
    | false =>
      apply decide_eq_false
      intro hmem
      have h2 : missingB nfc fs folder l = true := (List.mem_filter.mp hmem).2
      rw [hmb] at h2
      exact Bool.noConfusion h2
    | true =>
      apply decide_eq_true
      apply List.mem_filter.mpr
      exact ⟨List.mem_map_of_mem _ hl, hmb⟩
  have hkeepF : rest.filter (fun l =>
        !(decide (fpOfD nfc l ∈ (rest.map (fun l => fpOfD nfc l)).filter
          (fun fp => !(fsExists fs ((concat_filepaths folder fp).getD ""))))))
      = rest.filter (fun l => !(missingB nfc fs folder l)) :=
    List.filter_congr (fun l hl => by rw [hbridge l hl])
  have hremF : rest.filter (fun l =>
        decide (fpOfD nfc l ∈ (rest.map (fun l => fpOfD nfc l)).filter
          (fun fp => !(fsExists fs ((concat_filepaths folder fp).getD "")))))
      = rest.filter (fun l => missingB nfc fs folder l) :=
    List.filter_congr (fun l hl => hbridge l hl)
  have hrc := remove_checksums_eval nfc confirm fs folder require_confirmation
    ((rest.map (fun l => fpOfD nfc l)).filter
      (fun fp => !(fsExists fs ((concat_filepaths folder fp).getD ""))))
    content rest fs1 hnfc hconf hclean hget hlines hvalid hrot
  have happ : append_unique_lines_to_file fs1 (canonical_path folder false)
      (((main_checksum_header.data ++ ['\n'])
        :: rest.filter (fun l =>
          !(decide (fpOfD nfc l ∈ (rest.map (fun l => fpOfD nfc l)).filter
            (fun fp => !(fsExists fs ((concat_filepaths folder fp).getD ""))))))).map
        (fun l => (⟨l⟩ : String)))
      = fsSet fs1 (canonical_path folder false)
          ⟨joinLines ((main_checksum_header.data ++ ['\n'])
            :: rest.filter (fun l => !(missingB nfc fs folder l)))⟩ := by
    rw [hkeepF, append_unique_absent _ _ _ hp_none, map_mk_data]
  refine ⟨fsSet fs1 (canonical_path folder false)
      ⟨joinLines ((main_checksum_header.data ++ ['\n'])
        :: rest.filter (fun l => !(missingB nfc fs folder l)))⟩, k,
    ?_, ?_, ?_, ?_, hkfree, ?_, ?_⟩
  · show (match get_checksum_save_location fs folder true false with
      | none => none
      | some (fs0, checksum_filepath) =>
        if ¬ fsExists fs0 checksum_filepath then some (0, fs0)
        else
          match finding_missing_files nfc fs0 folder checksum_filepath with
          | none => none
          | some missing =>
            match remove_checksums nfc confirm fs0 checksum_filepath missing
                true require_confirmation with
            | none => none
            | some (fs', _, removed) => some (removed.length, fs')) = _
    rw [hupd]
    show (if ¬ fsExists fs (canonical_path folder false) then some (0, fs)
      else
        match finding_missing_files nfc fs folder (canonical_path folder false) with
        | none => none
        | some missing =>
          match remove_checksums nfc confirm fs (canonical_path folder false)
              missing true require_confirmation with
          | none => none
          | some (fs', _, removed) => some (removed.length, fs')) = _
    have hex : fsExists fs (canonical_path folder false) = true := by
      rw [fsExists, hget]
      rfl
    rw [if_neg (fun hn => hn hex), hfind]
    show (match remove_checksums nfc confirm fs (canonical_path folder false)
        ((rest.map (fun l => fpOfD nfc l)).filter
          (fun fp => !(fsExists fs ((concat_filepaths folder fp).getD ""))))
        true require_confirmation with
      | none => none
      | some (fs', _, removed) => some (removed.length, fs')) = _
    rw [hrc]
    show some ((((rest.filter (fun l =>
        decide (fpOfD nfc l ∈ (rest.map (fun l => fpOfD nfc l)).filter
          (fun fp => !(fsExists fs ((concat_filepaths folder fp).getD "")))))).map
        (fun l => (⟨l⟩ : String))).length),
      append_unique_lines_to_file fs1 (canonical_path folder false)
        (((main_checksum_header.data ++ ['\n'])
          :: rest.filter (fun l =>
            !(decide (fpOfD nfc l ∈ (rest.map (fun l => fpOfD nfc l)).filter
              (fun fp => !(fsExists fs ((concat_filepaths folder fp).getD ""))))))).map
          (fun l => (⟨l⟩ : String)))) = _
    rw [happ, hremF, List.length_map]
  · exact fsGet_fsSet_self _ _ _
  · apply readlines_joinLines
    intro l hl
    rcases List.mem_cons.mp hl with h | h
    · subst h
      exact ⟨main_checksum_header.data, rfl, by decide⟩
    · exact (hgood l (List.mem_filter.mp h).1).2.2.2.2
  · intro l hl
    have h2 := (List.mem_filter.mp hl).2
    simpa using h2
  · rw [fsGet_fsSet_ne _ _ _ _ hkne, hold]
  · intro l hl _
    rw [hlines]
    exact List.mem_cons_of_mem _ hl

/-- Witness for C6 at a concrete input: directory `r` whose manifest lists
`./a` (present) and `./b` (missing); pruning removes exactly the `./b` line,
keeps the `./a` line, and rotates the full original manifest aside. -/
theorem remove_missing_checksums_prunes_witness :
    ∃ (fs2 : Fs) (k : Nat),
      remove_missing_checksums id (fun _ => true) c6fs "r" true true
        = some ((c6rest.filter (fun l => missingB id c6fs "r" l)).length, fs2) ∧
      fsGet fs2 (canonical_path "r" false)
        = some ⟨joinLines ((main_checksum_header.data ++ ['\n'])
            :: c6rest.filter (fun l => !(missingB id c6fs "r" l)))⟩ ∧
      readlines (joinLines ((main_checksum_header.data ++ ['\n'])
          :: c6rest.filter (fun l => !(missingB id c6fs "r" l))))
        = (main_checksum_header.data ++ ['\n'])
            :: c6rest.filter (fun l => !(missingB id c6fs "r" l)) ∧
      (∀ l ∈ c6rest.filter (fun l => !(missingB id c6fs "r" l)),
        missingB id c6fs "r" l = false) ∧
      fsExists c6fs ⟨oldCand (splitext (canonical_path "r" false).data).1
        (splitext (canonical_path "r" false).data).2 k⟩ = false ∧
      fsGet fs2 ⟨oldCand (splitext (canonical_path "r" false).data).1
        (splitext (canonical_path "r" false).data).2 k⟩ = some c6content ∧
      (∀ l ∈ c6rest, missingB id c6fs "r" l = true →
        l ∈ readlines c6content.data) :=
  remove_missing_checksums_prunes id (fun _ => true) c6fs "r" c6content c6rest true
    (fun _ => rfl) (fun _ => rfl) (by decide) (by decide) (by decide)
    (by
      intro l hl
      rcases List.mem_cons.mp hl with h | hl2
      · subst h
        exact ⟨by decide, by decide, by decide, by decide,
          ("./a -> 00000000000000000000000000000000" : String).data,
          by decide, by decide⟩
      rcases List.mem_cons.mp hl2 with h | hl3
      · subst h
        exact ⟨by decide, by decide, by decide, by decide,
          ("./b -> 11111111111111111111111111111111" : String).data,
          by decide, by decide⟩
      cases hl3)

end CAT
